import Mathlib

/-!
# Verification of `desimeter` fiducial identification (`py/desimeter/findfiducials.py`)

Shallow embedding of the fiducial / pinhole identification engine:

* `compute_triangles` — triangle shape descriptors (side-length ratio `r`,
  first-vertex cosine `c`) over every 3-point subset of a point list,
  mirroring the nested `i < j < k` loops and the `np.argsort`-based
  canonical vertex ordering of the source;
* candidate detection (`k = 4` nearest-neighbour query, at least 3 neighbours
  including self within `separation`);
* fiducial matching (nearest-neighbour query from each known fiducial centre,
  two median-offset refinement rounds, acceptance below 10 pixels);
* per-cluster greedy pinhole assignment (triangle pair distance, `argmin`,
  processing in ascending order of best-match distance, skip of flat
  triangles with cosine above 0.9, stop above `1e-3`, early exit once all
  spots of the cluster are assigned).

Machine floating point is idealised as exact real arithmetic (`ℝ`,
`Real.sqrt`).  NumPy's `argsort` is modelled as a stable sort, its first-index
`argmin`, and `np.median` as the midpoint of the sorted list, exactly as the
eventual values of those calls on the inputs exercised here.
-/

namespace Desimeter

noncomputable section

/-- A 2D point (pixel or focal-plane coordinates). -/
abbrev Pt := ℝ × ℝ

/-- Squared Euclidean distance, as written in the source:
`(x1-x0)**2 + (y1-y0)**2`. -/
def d2 (p q : Pt) : ℝ := (q.1 - p.1) ^ 2 + (q.2 - p.2) ^ 2

/-- Euclidean distance between two points (what the KD-tree queries return). -/
def dist2d (p q : Pt) : ℝ := Real.sqrt (d2 p q)

/-- Dot product of two 2D vectors. -/
def dotPt (u v : Pt) : ℝ := u.1 * v.1 + u.2 * v.2

/-- `(v1 - v0) · (v2 - v0)`, the numerator of the cosine at vertex `v0`. -/
def edgeDot (v0 v1 v2 : Pt) : ℝ :=
  (v1.1 - v0.1) * (v2.1 - v0.1) + (v1.2 - v0.2) * (v2.2 - v0.2)

/-- `np.argsort` on a 3-element array, written out as a decision tree.
NumPy's sort on 3 elements is an (stable) insertion sort, so ties keep the
lower index first.  Returns the permutation `(i₀, i₁, i₂)` with
`a[i₀] ≤ a[i₁] ≤ a[i₂]`. -/
def argsort3 (a b c : ℝ) : ℕ × ℕ × ℕ :=
  if a ≤ b then
    if b ≤ c then (0, 1, 2)
    else if a ≤ c then (0, 2, 1)
    else (2, 0, 1)
  else
    if a ≤ c then (1, 0, 2)
    else if b ≤ c then (1, 2, 0)
    else (2, 1, 0)

/-- The vertex shared by two of the triangle's sides, following
`pairs = [[0,1],[1,2],[0,2]]` and `np.intersect1d` in the source:
side `0` joins vertices `{0,1}`, side `1` joins `{1,2}`, side `2` joins
`{0,2}`. -/
def commonVertex (s t : ℕ) : ℕ :=
  match s, t with
  | 0, 1 => 1
  | 1, 0 => 1
  | 0, 2 => 0
  | 2, 0 => 0
  | 1, 2 => 2
  | 2, 1 => 2
  | _, _ => 0

/-- Value of side `s` among the three squared side lengths
`tl2 = [l01, l12, l20]`. -/
def sideVal (l01 l12 l20 : ℝ) : ℕ → ℝ
  | 0 => l01
  | 1 => l12
  | _ => l20

/-- Pick a vertex of the triangle by local index. -/
def vertexPick (p0 p1 p2 : Pt) : ℕ → Pt
  | 0 => p0
  | 1 => p1
  | _ => p2

/-- Pick a point-list index of the triangle by local index. -/
def indexPick (i j k : ℕ) : ℕ → ℕ
  | 0 => i
  | 1 => j
  | _ => k

/-- One triangle of `compute_triangles`: the three point indices in canonical
order (`tk`), the longest/shortest side-length ratio (`tr`) and the cosine at
the first canonical vertex (`tc`). -/
structure TriFeat where
  i0 : ℕ
  i1 : ℕ
  i2 : ℕ
  r : ℝ
  c : ℝ

instance : Inhabited TriFeat := ⟨⟨0, 0, 0, 0, 0⟩⟩

/-- The triangle descriptor computed by the body of the triple loop of
`compute_triangles`, for three explicit vertices `p0, p1, p2` carrying the
point-list indices `i, j, k`. -/
def triFeatP (p0 p1 p2 : Pt) (i j k : ℕ) : TriFeat :=
  let l01 := d2 p0 p1
  let l12 := d2 p1 p2
  let l20 := d2 p0 p2
  let ss := argsort3 l01 l12 l20
  let o0 := commonVertex ss.1 ss.2.2
  let o1 := commonVertex ss.1 ss.2.1
  let o2 := commonVertex ss.2.1 ss.2.2
  let v0 := vertexPick p0 p1 p2 o0
  let v1 := vertexPick p0 p1 p2 o1
  let v2 := vertexPick p0 p1 p2 o2
  { i0 := indexPick i j k o0
    i1 := indexPick i j k o1
    i2 := indexPick i j k o2
    r := Real.sqrt (sideVal l01 l12 l20 ss.2.2 / sideVal l01 l12 l20 ss.1)
    c := edgeDot v0 v1 v2 / Real.sqrt (d2 v0 v1 * d2 v0 v2) }

/-- The triangle descriptor for the triple of indices `i, j, k` into `pts`. -/
def triFeat (pts : List Pt) (i j k : ℕ) : TriFeat :=
  triFeatP (pts.getD i (0, 0)) (pts.getD j (0, 0)) (pts.getD k (0, 0)) i j k

/-- All index triples `i < j < k` drawn from `0, …, n-1`, in the order of the
source's three nested loops `for i in range(nn): for j in range(i+1, nn):
for k in range(j+1, nn)` (`List.range' a m` is Python's `range(a, a+m)`). -/
def triples (n : ℕ) : List (ℕ × ℕ × ℕ) :=
  (List.range n).flatMap fun i =>
    (List.range' (i + 1) (n - (i + 1))).flatMap fun j =>
      (List.range' (j + 1) (n - (j + 1))).map fun k => (i, j, k)

/-- `compute_triangles`: the triangle descriptors of every unordered triple of
points of `pts` (source lines 17–57). -/
def compute_triangles (pts : List Pt) : List TriFeat :=
  (triples pts.length).map fun t => triFeat pts t.1 t.2.1 t.2.2

/-- A direct similarity of the plane: rotation by the matrix
`[[a, -b], [b, a]]` (with `a² + b² = 1`), uniform scaling by `s > 0` and
translation by `t`. -/
def simT (a b s : ℝ) (t : Pt) (p : Pt) : Pt :=
  (s * (a * p.1 - b * p.2) + t.1, s * (b * p.1 + a * p.2) + t.2)

/-! ## NumPy primitives: `argmin`, `min`, `argsort`, `median` -/

/-- `np.min` of a 1D array (junk value `0` on the empty array, which NumPy
rejects at runtime). -/
def minList : List ℝ → ℝ
  | [] => 0
  | [a] => a
  | a :: b :: rest => min a (minList (b :: rest))

/-- `np.argmin`: index of the first occurrence of the minimum. -/
def argminList : List ℝ → ℕ
  | [] => 0
  | [_] => 0
  | a :: b :: rest => if a ≤ minList (b :: rest) then 0 else argminList (b :: rest) + 1

/-- The comparison used to sort `(value, index)` pairs by value; insertion
sort with this relation is stable, hence ties keep the lower original index
first, matching NumPy's small-array (insertion) sort. -/
def byVal (p q : ℝ × ℕ) : Prop := p.1 ≤ q.1

instance : DecidableRel byVal := fun p q => inferInstanceAs (Decidable (p.1 ≤ q.1))

instance : IsTotal (ℝ × ℕ) byVal := ⟨fun p q => le_total p.1 q.1⟩

instance : IsTrans (ℝ × ℕ) byVal := ⟨fun _ _ _ h h' => le_trans h h'⟩

/-- The list `[(l[0], 0), (l[1], 1), …]` of values paired with their index. -/
def withIdx (l : List ℝ) : List (ℝ × ℕ) := l.enum.map fun p => (p.2, p.1)

/-- `np.argsort` (stable): indices that sort `l` ascending, ties by index. -/
def argsortList (l : List ℝ) : List ℕ :=
  ((withIdx l).insertionSort byVal).map Prod.snd

/-- `np.median`: midpoint of the sorted list (mean of the two middle elements
for even length; junk `0` for the empty list, which NumPy rejects). -/
def median (l : List ℝ) : ℝ :=
  let s := l.insertionSort (· ≤ ·)
  if l.length % 2 = 1 then s.getD (l.length / 2) 0
  else (s.getD (l.length / 2 - 1) 0 + s.getD (l.length / 2) 0) / 2

/-! ## Candidate detection (source lines 95–101)

`tree.query(xy, k=4, distance_upper_bound=separation)` is scipy's
`cKDTree.query` (ckdtree/src/query.cxx).  With at most `leafsize = 16` points
the whole tree is a single leaf, so the query scans the points in index order
and maintains a binary min-heap of the current best `k` on the priority
`-d²` (the root is the farthest retained neighbour): a candidate inside the
upper bound is pushed while fewer than `k` are held (sift-up with strict
`<`), and afterwards replaces the root only if strictly closer (then
sift-down; on equal child priorities the left child is chosen, all
comparisons strict `<`).  The result slots are then filled from the back by
popping the farthest first, so equidistant neighbours come out in heap
order, not index order.  Neighbours beyond the bound are reported at
distance `inf` and never enter the heap; the later `distance < separation`
tests therefore see exactly the retained neighbours. -/

/-- Swap two slots of the heap array. -/
def hswap (h : List (ℝ × ℕ) ) (i j : ℕ) : List (ℝ × ℕ) :=
  (h.set i (h.getD j (0, 0))).set j (h.getD i (0, 0))

/-- Heap sift-up from slot `i` (`heappush`): swap with the parent
`(i - 1) / 2` while the priority is strictly below the parent's. -/
def siftUp (h : List (ℝ × ℕ) ) (i : ℕ) : List (ℝ × ℕ) :=
  if hz : i = 0 then h
  else if (h.getD i (0, 0)).1 < (h.getD ((i - 1) / 2) (0, 0)).1 then
    siftUp (hswap h i ((i - 1) / 2)) ((i - 1) / 2)
  else h
termination_by i
decreasing_by omega

/-- Heap sift-down from slot `i`: pick the child with the strictly smaller
priority (the left child `2i+1` on ties) and swap while it is strictly
below the parent. -/
def siftDown (h : List (ℝ × ℕ) ) (i : ℕ) : List (ℝ × ℕ) :=
  if h1 : 2 * i + 1 < h.length then
    if h2 : 2 * i + 2 < h.length ∧
        (h.getD (2 * i + 2) (0, 0)).1 < (h.getD (2 * i + 1) (0, 0)).1 then
      if (h.getD (2 * i + 2) (0, 0)).1 < (h.getD i (0, 0)).1 then
        siftDown (hswap h i (2 * i + 2)) (2 * i + 2)
      else h
    else
      if (h.getD (2 * i + 1) (0, 0)).1 < (h.getD i (0, 0)).1 then
        siftDown (hswap h i (2 * i + 1)) (2 * i + 1)
      else h
  else h
termination_by h.length - i
decreasing_by
  · simp only [hswap, List.length_set]
    omega
  · simp only [hswap, List.length_set]
    omega

/-- Append an element and sift it up. -/
def heapPush (h : List (ℝ × ℕ) ) (x : ℝ × ℕ) : List (ℝ × ℕ) :=
  siftUp (h ++ [x]) h.length

/-- Offer one candidate `(priority, index)` with `priority = -d²` to the
bounded heap: ignore it beyond the upper bound (`-priority < ub²` fails),
push while fewer than `k` are held, otherwise replace the root (the farthest
retained neighbour, at the minimal priority) only if strictly closer. -/
def qpush (k : ℕ) (ub2 : ℝ) (h : List (ℝ × ℕ) ) (x : ℝ × ℕ) :
    List (ℝ × ℕ) :=
  if -x.1 < ub2 then
    if h.length < k then heapPush h x
    else if (h.getD 0 (0, 0)).1 < x.1 then siftDown (h.set 0 x) 0
    else h
  else h

/-- Pop the heap `n` times (the counted result-filling loop of `query.cxx`),
farthest retained neighbour first: emit the root, move the last slot to the
front and sift it down. -/
def heapPopAll (n : ℕ) (h : List (ℝ × ℕ) ) : List (ℝ × ℕ) :=
  if hz : n = 0 ∨ h.length = 0 then []
  else if h.length = 1 then h
  else
    h.getD 0 (0, 0) :: heapPopAll (n - 1)
      (siftDown (h.getD (h.length - 1) (0, 0) :: (h.drop 1).dropLast) 0)
termination_by n
decreasing_by omega

/-- The `k`-nearest-neighbour query result for one point: fold the
candidates `(-d², index)` in index order into the bounded heap, then empty
the heap into the result slots from the back (so the list reads
nearest-first). -/
def knnResult (k : ℕ) (ub2 : ℝ) (cands : List (ℝ × ℕ) ) : List (ℝ × ℕ) :=
  ((heapPopAll (cands.foldl (qpush k ub2) []).length
    (cands.foldl (qpush k ub2) [])).reverse)

/-- The `k = 4` nearest-neighbour query for spot `i`, as `(distance, index)`
pairs: scipy's bounded-heap query over the candidates in index order, the
distance recovered from the stored priority `-d²`. -/
def neighborList (pts : List Pt) (sep : ℝ) (i : ℕ) : List (ℝ × ℕ) :=
  (knnResult 4 (sep ^ 2)
    (withIdx (pts.map fun q => -(d2 (pts.getD i (0, 0)) q)))).map
    fun e => (Real.sqrt (-e.1), e.2)

/-- `number_of_neighbors`: how many of the 4 nearest neighbours (self
included) lie strictly within `separation`. -/
def numNeighbors (pts : List Pt) (sep : ℝ) (i : ℕ) : ℕ :=
  (neighborList pts sep i).countP fun p => decide (p.1 < sep)

/-- `fiducials_candidates_indices`: spots with at least 3 of their 4 nearest
neighbours (self included) within `separation`. -/
def fiducials_candidates (pts : List Pt) (sep : ℝ) : List ℕ :=
  (List.range pts.length).filter fun i => decide (3 ≤ numNeighbors pts sep i)

/-- `measured_spots_indices[i][measured_spots_distances[i] < separation]`:
the members of spot `i`'s cluster. -/
def clusterIndices (pts : List Pt) (sep : ℝ) (i : ℕ) : List ℕ :=
  ((neighborList pts sep i).filter fun p => decide (p.1 < sep)).map Prod.snd

/-! ## Fiducial matching (source lines 103–130) -/

/-- Index (into `cands`) of the nearest candidate to `p`
(`spots_tree.query(..., k=1)`). -/
def nearestIdx (cands : List Pt) (p : Pt) : ℕ :=
  argminList (cands.map fun q => dist2d p q)

/-- Distance from `p` to its nearest candidate. -/
def nearestDist (cands : List Pt) (p : Pt) : ℝ :=
  minList (cands.map fun q => dist2d p q)

/-- One refinement round (body of the `for loop in range(2)`): estimate the
residual translation as the per-axis median of fiducial minus matched
candidate, and subtract it from every fiducial position.  The matched
candidate used for the median is the nearest candidate of the current
fiducial position, exactly the `indices` in force when `dx, dy` are
computed. -/
def refineOnce (cands : List Pt) (fids : List Pt) : List Pt :=
  let matchedPt : List Pt := fids.map fun f => cands.getD (nearestIdx cands f) (0, 0)
  let dx := median ((fids.zip matchedPt).map fun p => p.1.1 - p.2.1)
  let dy := median ((fids.zip matchedPt).map fun p => p.1.2 - p.2.2)
  fids.map fun f => (f.1 - dx, f.2 - dy)

/-- Fiducial positions after the 2 refinement rounds. -/
def refinedFids (cands : List Pt) (fids : List Pt) : List Pt :=
  refineOnce cands (refineOnce cands fids)

/-- `maxdistance` (source line 124). -/
def maxdistance : ℝ := 10

/-- Matched (candidate-list index, fiducial index) pairs: after refinement,
each fiducial whose nearest candidate lies strictly below `maxdistance` is
paired with that candidate (`selection = np.where(distances < maxdistance)`;
`fiducials_candidates_indices[indices][selection]`). -/
def matchedPairs (cands : List Pt) (fids : List Pt) : List (ℕ × ℕ) :=
  let f2 := refinedFids cands fids
  ((List.range fids.length).filter fun m =>
      decide (nearestDist cands (f2.getD m (0, 0)) < maxdistance)).map fun m =>
    (nearestIdx cands (f2.getD m (0, 0)), m)

/-! ## Data model -/

/-- A row of the measured spot table: pixel position plus the mutable
identity columns `LOCATION` and `PINHOLE_ID` (0 = unassigned). -/
structure Spot where
  x : ℝ
  y : ℝ
  location : ℤ
  pinhole : ℤ

instance : Inhabited Spot := ⟨⟨0, 0, 0, 0⟩⟩

/-- A row of the static metrology table: identity labels and the physical
(focal-plane) position `X_FP, Y_FP`. -/
structure MRow where
  location : ℤ
  pinhole : ℤ
  xfp : ℝ
  yfp : ℝ

/-- A metrology pinhole row after the physical→pixel transform:
identity labels plus the derived pixel position `XPIX, YPIX`. -/
structure PRow where
  location : ℤ
  pinhole : ℤ
  pos : Pt

instance : Inhabited PRow := ⟨⟨0, 0, (0, 0)⟩⟩

/-! ## Pinhole assignment (source lines 141–208) -/

/-- Unit vector along the first canonical side (vertex0 → vertex1) of a
triangle (`tdu`, source lines 173–176). -/
def firstSideUnit (pts : List Pt) (t : TriFeat) : Pt :=
  let p0 := pts.getD t.i0 (0, 0)
  let p1 := pts.getD t.i1 (0, 0)
  let nrm := Real.sqrt ((p1.1 - p0.1) ^ 2 + (p1.2 - p0.2) ^ 2)
  ((p1.1 - p0.1) / nrm, (p1.2 - p0.2) / nrm)

/-- Squared matching distance between a measured triangle `a` (over `xy1`)
and a metrology triangle `b` (over `xy2`), source line 181:
`(tr1-tr2)² + (tc1-tc2)² + (|cos12|-1)²` with `cos12` the dot product of the
two unit first-side vectors. -/
def triDist2 (xy1 xy2 : List Pt) (a b : TriFeat) : ℝ :=
  (a.r - b.r) ^ 2 + (a.c - b.c) ^ 2 +
    (|dotPt (firstSideUnit xy1 a) (firstSideUnit xy2 b)| - 1) ^ 2

/-- State threaded through the assignment loop: the per-cluster
`pinhole_ids` array and the full spot table. -/
abbrev AssignState := List ℤ × List Spot

/-- One accepted triangle pair (source lines 195–199): write the metrology
`PINHOLE_ID`s of the matched triangle's canonical vertices into
`pinhole_ids` at the measured triangle's canonical vertices, and set
`LOCATION` and `PINHOLE_ID` of the corresponding spots. -/
def assignStep (loc : ℤ) (pi1 : List ℕ) (ids2 : List ℤ) (t1 t2 : List TriFeat)
    (matched : List ℕ) (p : ℕ) (st : AssignState) : AssignState :=
  let a := t1.getD p default
  let b := t2.getD (matched.getD p 0) default
  let id0 := ids2.getD b.i0 0
  let id1 := ids2.getD b.i1 0
  let id2v := ids2.getD b.i2 0
  let pids := ((st.1.set a.i0 id0).set a.i1 id1).set a.i2 id2v
  let upd : List Spot → ℕ → ℤ → List Spot := fun sp i pid =>
    sp.set i { sp.getD i default with location := loc, pinhole := pid }
  let sp := upd (upd (upd st.2 (pi1.getD a.i0 0) id0) (pi1.getD a.i1 0) id1)
    (pi1.getD a.i2 0) id2v
  (pids, sp)

/-- The greedy assignment loop over `ranked_pairs` (source lines 191–208):
skip flat triangles (`tc1[p] > 0.9`, `continue`), stop at a best-match
distance above `1e-3` (`break`), otherwise accept the pair and exit early
once every spot of the cluster has a nonzero pinhole id. -/
def assignLoop (loc : ℤ) (pi1 : List ℕ) (ids2 : List ℤ) (t1 t2 : List TriFeat)
    (matched : List ℕ) (d2min : List ℝ) : List ℕ → AssignState → AssignState
  | [], st => st
  | p :: rest, st =>
    if (t1.getD p default).c > 0.9 then
      assignLoop loc pi1 ids2 t1 t2 matched d2min rest st
    else if d2min.getD p 0 > 1e-3 then st
    else
      let st' := assignStep loc pi1 ids2 t1 t2 matched p st
      if st'.1.countP (fun z => decide (0 < z)) = pi1.length then st'
      else assignLoop loc pi1 ids2 t1 t2 matched d2min rest st'

/-- Process one matched (cluster, fiducial) pair (the body of the
`for index1, index2` loop, source lines 150–208): build both triangle sets,
compute the pairwise matching distances, the per-measured-triangle best
match (`np.argmin(..., axis=1)`) and best distance, rank the measured
triangles by best distance (`np.argsort`) and run the greedy assignment. -/
def processCluster (pinholesT : List PRow) (loc : ℤ) (pi1 : List ℕ)
    (spots : List Spot) : List Spot :=
  let xy1 : List Pt := pi1.map fun i => ((spots.getD i default).x, (spots.getD i default).y)
  let rows2 : List PRow := pinholesT.filter fun m => decide (m.location = loc)
  let xy2 : List Pt := rows2.map PRow.pos
  let ids2 : List ℤ := rows2.map PRow.pinhole
  let t1 := compute_triangles xy1
  let t2 := compute_triangles xy2
  let row : TriFeat → List ℝ := fun a => t2.map fun b => triDist2 xy1 xy2 a b
  let matched : List ℕ := t1.map fun a => argminList (row a)
  let d2min : List ℝ := t1.map fun a => minList (row a)
  let ranked : List ℕ := argsortList d2min
  (assignLoop loc pi1 ids2 t1 t2 matched d2min ranked
    (List.replicate pi1.length 0, spots)).2

/-! ## `findfiducials` (source lines 60–210) -/

/-- Default `separation` parameter (7 pixels). -/
def defaultSeparation : ℝ := 7

/-- The pure core of `findfiducials`, once the metrology table is loaded:
`tx` is the physical→pixel transform (`input_tx.fp2fvc`), `metrology` the raw
metrology table, `spots` the spot table (`LOCATION`/`PINHOLE_ID` columns
present, meaning they were created all-zero if absent).  Keeps only the rows
with `PINHOLE_ID > 0`, derives pixel positions, takes the `PINHOLE_ID == 4`
rows as fiducial centres, detects candidates, matches them to fiducial
centres, and processes each matched pair in order. -/
def findfiducialsRun (tx : Pt → Pt) (metrology : List MRow) (spots : List Spot)
    (separation : ℝ) : List Spot :=
  let pinholesT : List PRow :=
    (metrology.filter fun m => decide (0 < m.pinhole)).map fun m =>
      ⟨m.location, m.pinhole, tx (m.xfp, m.yfp)⟩
  let fiducialsT : List PRow := pinholesT.filter fun m => decide (m.pinhole = 4)
  let spotsXY : List Pt := spots.map fun s => (s.x, s.y)
  let cands : List ℕ := fiducials_candidates spotsXY separation
  let candPts : List Pt := cands.map fun i => spotsXY.getD i (0, 0)
  let pairs := matchedPairs candPts (fiducialsT.map PRow.pos)
  pairs.foldl
    (fun sp pr =>
      let spotIdx := cands.getD pr.1 0
      let loc := (fiducialsT.getD pr.2 default).location
      processCluster pinholesT loc (clusterIndices spotsXY separation spotIdx) sp)
    spots

/-- Path of the metrology reference dataset
(`resource_filename('desimeter', "data/fp-metrology.csv")`). -/
def metrologyFilename : String := "data/fp-metrology.csv"

/-- The metrology loading step (source lines 75–93): if a table is already
cached it is reused; otherwise the reference file must exist, else the
function fails with an `IOError` naming the file (`"cannot find " +
filename`), before any spot is touched. -/
def loadMetrology (fileOnDisk : Option (List MRow)) (cached : Option (List MRow)) :
    Except String (List MRow) :=
  match cached with
  | some t => Except.ok t
  | none =>
    match fileOnDisk with
    | none => Except.error ("cannot find " ++ metrologyFilename)
    | some t => Except.ok t

/-- `findfiducials` including its fallible metrology-loading step:
`fileOnDisk` is the content of `data/fp-metrology.csv` if the file exists,
`cached` the process-wide cached metrology table. -/
def findfiducials (tx : Pt → Pt) (fileOnDisk : Option (List MRow))
    (cached : Option (List MRow)) (spots : List Spot) (separation : ℝ) :
    Except String (List Spot) :=
  (loadMetrology fileOnDisk cached).map fun metrology =>
    findfiducialsRun tx metrology spots separation

/-! ## Concrete scenarios -/

/-- Synthetic metrology of the spec's end-to-end scenario: one fiducial
(`LOCATION = 1`) with 4 pinholes at physical positions `(0,0)` (id 4,
central dot), `(1,0)` (id 1), `(0,1)` (id 2), `(1,1)` (id 3). -/
def sqMetrology : List MRow := [⟨1, 4, 0, 0⟩, ⟨1, 1, 1, 0⟩, ⟨1, 2, 0, 1⟩, ⟨1, 3, 1, 1⟩]

/-- Spot table of the spec's end-to-end scenario: the same layout shifted by
the fixed pixel offset `(+100, +50)`, identity columns all unassigned. -/
def sqSpots : List Spot :=
  [⟨100, 50, 0, 0⟩, ⟨101, 50, 0, 0⟩, ⟨100, 51, 0, 0⟩, ⟨101, 51, 0, 0⟩]

/-- An asymmetric variant of the synthetic fiducial: pinholes at `(0,0)`
(id 4), `(1,0)` (id 1), `(0,2)` (id 2), `(2,3)` (id 3).  Unlike the unit
square, its four triangles have pairwise distinct side-length ratios. -/
def asymMetrology : List MRow := [⟨1, 4, 0, 0⟩, ⟨1, 1, 1, 0⟩, ⟨1, 2, 0, 2⟩, ⟨1, 3, 2, 3⟩]

/-- The asymmetric cluster shifted by the fixed pixel offset `(+100, +50)`. -/
def asymSpots : List Spot :=
  [⟨100, 50, 0, 0⟩, ⟨101, 50, 0, 0⟩, ⟨100, 52, 0, 0⟩, ⟨102, 53, 0, 0⟩]

/-- Candidate positions for the matcher counterexample. -/
def c3Cands : List Pt := [(0, 0), (1, 0), (5, 0)]

/-- Fiducial centres for the matcher counterexample: the candidates shifted
by the fixed global translation `(+100, 0)`. -/
def c3Fids : List Pt := [(100, 0), (101, 0), (105, 0)]

/-- Spot positions for the candidate-detector scenario: one isolated point
plus a 4-point cluster whose mutual distances all lie below `separation`. -/
def c4Pts : List Pt := [(1000, 1000), (100, 50), (101, 50), (100, 52), (102, 53)]

end

/-! # Theorems -/

/-! ## Basic facts about `d2` and the sorting helpers -/

lemma d2_nonneg (p q : Pt) : 0 ≤ d2 p q := by
  unfold d2; positivity

lemma d2_comm (p q : Pt) : d2 p q = d2 q p := by
  unfold d2; ring

lemma d2_eq_zero_iff (p q : Pt) : d2 p q = 0 ↔ p = q := by
  unfold d2
  constructor
  · intro h
    have h1 : (q.1 - p.1) ^ 2 = 0 ∧ (q.2 - p.2) ^ 2 = 0 := by
      constructor <;> nlinarith [sq_nonneg (q.1 - p.1), sq_nonneg (q.2 - p.2)]
    have hx : q.1 = p.1 := by nlinarith [h1.1]
    have hy : q.2 = p.2 := by nlinarith [h1.2]
    exact Prod.ext hx.symm hy.symm
  · rintro rfl; ring

lemma d2_pos_of_ne {p q : Pt} (h : p ≠ q) : 0 < d2 p q :=
  lt_of_le_of_ne (d2_nonneg p q) fun h0 => h ((d2_eq_zero_iff p q).mp h0.symm)

/-! ## Triple enumeration: count and membership -/

lemma sum_choose_down (m k : ℕ) :
    ∑ i ∈ Finset.range m, (m - 1 - i).choose k = m.choose (k + 1) := by
  induction m with
  | zero => simp
  | succ m ih =>
    rw [Finset.sum_range_succ']
    have h1 : ∀ i, (m + 1 - 1 - (i + 1)).choose k = (m - 1 - i).choose k := by
      intro i; congr 1; omega
    simp only [h1, ih]
    have h2 : m + 1 - 1 - 0 = m := by omega
    rw [h2, Nat.choose_succ_succ]
    simp only [Nat.succ_eq_add_one]
    omega

lemma flatMap_range_length {α : Type} (n : ℕ) (g : ℕ → List α) :
    ((List.range n).flatMap g).length = ∑ i ∈ Finset.range n, (g i).length := by
  rw [List.length_flatMap]; rfl

lemma flatMap_range'_length {α : Type} (s m : ℕ) (g : ℕ → List α) :
    ((List.range' s m).flatMap g).length = ∑ t ∈ Finset.range m, (g (s + t)).length := by
  rw [List.length_flatMap, List.range'_eq_map_range, List.map_map]; rfl

lemma triples_length (n : ℕ) : (triples n).length = n.choose 3 := by
  unfold triples
  rw [flatMap_range_length]
  calc ∑ i ∈ Finset.range n,
        ((List.range' (i + 1) (n - (i + 1))).flatMap fun j =>
          (List.range' (j + 1) (n - (j + 1))).map fun k => (i, j, k)).length
      = ∑ i ∈ Finset.range n, (n - 1 - i).choose 2 := by
        refine Finset.sum_congr rfl fun i _ => ?_
        rw [flatMap_range'_length]
        calc ∑ t ∈ Finset.range (n - (i + 1)),
              ((List.range' ((i + 1) + t + 1) (n - ((i + 1) + t + 1))).map
                fun k => (i, (i + 1) + t, k)).length
            = ∑ t ∈ Finset.range (n - (i + 1)), ((n - (i + 1)) - 1 - t).choose 1 := by
              refine Finset.sum_congr rfl fun t ht => ?_
              rw [List.length_map, List.length_range', Nat.choose_one_right]
              omega
          _ = (n - (i + 1)).choose 2 := sum_choose_down _ 1
          _ = (n - 1 - i).choose 2 := by congr 1; omega
    _ = n.choose 3 := sum_choose_down n 2

lemma mem_triples {n : ℕ} {t : ℕ × ℕ × ℕ} (h : t ∈ triples n) :
    t.1 < t.2.1 ∧ t.2.1 < t.2.2 ∧ t.2.2 < n := by
  unfold triples at h
  rw [List.mem_flatMap] at h
  obtain ⟨i, hi, h⟩ := h
  rw [List.mem_flatMap] at h
  obtain ⟨j, hj, h⟩ := h
  rw [List.mem_map] at h
  obtain ⟨k, hk, rfl⟩ := h
  rw [List.mem_range'_1] at hj hk
  rw [List.mem_range] at hi
  dsimp only
  omega

/-! ## Triangle feature bounds -/

lemma r_ge_one {x y : ℝ} (hy : 0 < y) (hxy : y ≤ x) : 1 ≤ Real.sqrt (x / y) := by
  rw [show (1 : ℝ) = Real.sqrt 1 by rw [Real.sqrt_one]]
  exact Real.sqrt_le_sqrt ((one_le_div hy).mpr hxy)

/-- Cauchy–Schwarz for the vertex cosine: `|c| ≤ 1` whenever both adjacent
sides have positive length. -/
lemma cos_abs_le (v0 v1 v2 : Pt) (h1 : 0 < d2 v0 v1) (h2 : 0 < d2 v0 v2) :
    |edgeDot v0 v1 v2 / Real.sqrt (d2 v0 v1 * d2 v0 v2)| ≤ 1 := by
  have hprod : 0 < d2 v0 v1 * d2 v0 v2 := mul_pos h1 h2
  have hs : 0 < Real.sqrt (d2 v0 v1 * d2 v0 v2) := Real.sqrt_pos.mpr hprod
  rw [abs_div, abs_of_pos hs, div_le_one hs]
  rw [← Real.sqrt_sq (abs_nonneg (edgeDot v0 v1 v2))]
  apply Real.sqrt_le_sqrt
  rw [sq_abs]
  unfold edgeDot d2
  nlinarith [sq_nonneg ((v1.1 - v0.1) * (v2.2 - v0.2) - (v1.2 - v0.2) * (v2.1 - v0.1))]

/-- For three pairwise distinct vertices the side-length ratio is at least 1
and the vertex cosine lies in `[-1, 1]`. -/
lemma triFeatP_bounds (p0 p1 p2 : Pt) (i j k : ℕ)
    (h01 : p0 ≠ p1) (h12 : p1 ≠ p2) (h02 : p0 ≠ p2) :
    1 ≤ (triFeatP p0 p1 p2 i j k).r ∧ |(triFeatP p0 p1 p2 i j k).c| ≤ 1 := by
  have hd01 : 0 < d2 p0 p1 := d2_pos_of_ne h01
  have hd12 : 0 < d2 p1 p2 := d2_pos_of_ne h12
  have hd02 : 0 < d2 p0 p2 := d2_pos_of_ne h02
  have hd10 : 0 < d2 p1 p0 := by rwa [d2_comm p1 p0]
  have hd21 : 0 < d2 p2 p1 := by rwa [d2_comm p2 p1]
  have hd20 : 0 < d2 p2 p0 := by rwa [d2_comm p2 p0]
  simp only [triFeatP, argsort3]
  split_ifs with h1 h2 h3 h4 h5 <;>
    simp only [sideVal, commonVertex, vertexPick]
  · exact ⟨r_ge_one hd01 (by linarith), cos_abs_le p0 p1 p2 hd01 hd02⟩
  · exact ⟨r_ge_one hd01 h1, cos_abs_le p1 p0 p2 hd10 hd12⟩
  · exact ⟨r_ge_one hd02 (by linarith), cos_abs_le p2 p0 p1 hd20 hd21⟩
  · exact ⟨r_ge_one hd12 (by linarith), cos_abs_le p2 p1 p0 hd21 hd20⟩
  · exact ⟨r_ge_one hd12 (by linarith), cos_abs_le p1 p2 p0 hd12 hd10⟩
  · exact ⟨r_ge_one hd02 (by linarith), cos_abs_le p0 p2 p1 hd02 hd01⟩

/-- **C5** Triangle enumeration completeness and feature ranges: on a set of
`m` (pairwise distinct) points, `compute_triangles` returns exactly
`C(m,3) = m(m-1)(m-2)/6` triangles, and every returned triangle has
side-length ratio `r ≥ 1` and vertex cosine `c ∈ [-1, 1]`. -/
theorem claim5_triangle_enumeration (pts : List Pt) (hd : pts.Pairwise (· ≠ ·)) :
    (compute_triangles pts).length = pts.length.choose 3 ∧
      ∀ t ∈ compute_triangles pts, 1 ≤ t.r ∧ -1 ≤ t.c ∧ t.c ≤ 1 := by
  constructor
  · unfold compute_triangles
    rw [List.length_map, triples_length]
  · intro t ht
    unfold compute_triangles at ht
    rw [List.mem_map] at ht
    obtain ⟨tr, htr, rfl⟩ := ht
    obtain ⟨h1, h2, h3⟩ := mem_triples htr
    have hne := List.pairwise_iff_getElem.mp hd
    have e1 : tr.1 < pts.length := by omega
    have e2 : tr.2.1 < pts.length := by omega
    have e3 : tr.2.2 < pts.length := by omega
    simp only [triFeat]
    rw [List.getD_eq_getElem _ _ e1, List.getD_eq_getElem _ _ e2,
      List.getD_eq_getElem _ _ e3]
    have hb := triFeatP_bounds (pts[tr.1]) (pts[tr.2.1]) (pts[tr.2.2]) tr.1 tr.2.1 tr.2.2
      (hne _ _ e1 e2 h1) (hne _ _ e2 e3 h2) (hne _ _ e1 e3 (by omega))
    exact ⟨hb.1, (abs_le.mp hb.2).1, (abs_le.mp hb.2).2⟩

/-- Witness for C5 at a concrete 4-point set. -/
theorem claim5_triangle_enumeration_witness :
    ([((0 : ℝ), (0 : ℝ)), (1, 0), (0, 2), (2, 3)] : List Pt).Pairwise (· ≠ ·) ∧
      ((compute_triangles [((0 : ℝ), (0 : ℝ)), (1, 0), (0, 2), (2, 3)]).length =
          ([((0 : ℝ), (0 : ℝ)), (1, 0), (0, 2), (2, 3)] : List Pt).length.choose 3 ∧
        ∀ t ∈ compute_triangles [((0 : ℝ), (0 : ℝ)), (1, 0), (0, 2), (2, 3)],
          1 ≤ t.r ∧ -1 ≤ t.c ∧ t.c ≤ 1) := by
  have hp : ([((0 : ℝ), (0 : ℝ)), (1, 0), (0, 2), (2, 3)] : List Pt).Pairwise (· ≠ ·) := by
    norm_num [List.pairwise_cons, Prod.ext_iff]
    constructor
    · rintro a b (⟨rfl, rfl⟩ | ⟨rfl, rfl⟩ | ⟨rfl, rfl⟩) h hb <;> norm_num at h hb
    · rintro a b (⟨rfl, rfl⟩ | ⟨rfl, rfl⟩) h hb <;> norm_num at h hb
  exact ⟨hp, claim5_triangle_enumeration _ hp⟩

/-! ## Similarity invariance of the triangle descriptors -/

lemma d2_simT (a b s : ℝ) (t : Pt) (hab : a ^ 2 + b ^ 2 = 1) (p q : Pt) :
    d2 (simT a b s t p) (simT a b s t q) = s ^ 2 * d2 p q := by
  unfold simT d2
  linear_combination (s ^ 2 * ((q.1 - p.1) ^ 2 + (q.2 - p.2) ^ 2)) * hab

lemma edgeDot_simT (a b s : ℝ) (t : Pt) (hab : a ^ 2 + b ^ 2 = 1) (v0 v1 v2 : Pt) :
    edgeDot (simT a b s t v0) (simT a b s t v1) (simT a b s t v2) =
      s ^ 2 * edgeDot v0 v1 v2 := by
  unfold simT edgeDot
  linear_combination (s ^ 2 *
    ((v1.1 - v0.1) * (v2.1 - v0.1) + (v1.2 - v0.2) * (v2.2 - v0.2))) * hab

lemma argsort3_smul {s : ℝ} (hs : s ≠ 0) (x y z : ℝ) :
    argsort3 (s ^ 2 * x) (s ^ 2 * y) (s ^ 2 * z) = argsort3 x y z := by
  have hs2 : 0 < s ^ 2 := by positivity
  have h1 : (s ^ 2 * x ≤ s ^ 2 * y) ↔ (x ≤ y) := mul_le_mul_left hs2
  have h2 : (s ^ 2 * y ≤ s ^ 2 * z) ↔ (y ≤ z) := mul_le_mul_left hs2
  have h3 : (s ^ 2 * x ≤ s ^ 2 * z) ↔ (x ≤ z) := mul_le_mul_left hs2
  unfold argsort3
  simp only [h1, h2, h3]

lemma sideVal_smul (s : ℝ) (x y z : ℝ) (n : ℕ) :
    sideVal (s * x) (s * y) (s * z) n = s * sideVal x y z n := by
  unfold sideVal
  match n with
  | 0 => rfl
  | 1 => rfl
  | _ + 2 => rfl

lemma vertexPick_map (f : Pt → Pt) (p0 p1 p2 : Pt) (n : ℕ) :
    vertexPick (f p0) (f p1) (f p2) n = f (vertexPick p0 p1 p2 n) := by
  unfold vertexPick
  match n with
  | 0 => rfl
  | 1 => rfl
  | _ + 2 => rfl

/-- The `(r, c)` descriptor (and the canonical index order) of a triangle is
unchanged by any direct similarity of the plane. -/
lemma triFeatP_simT (a b s : ℝ) (t : Pt) (hab : a ^ 2 + b ^ 2 = 1) (hs : 0 < s)
    (p0 p1 p2 : Pt) (i j k : ℕ) :
    triFeatP (simT a b s t p0) (simT a b s t p1) (simT a b s t p2) i j k =
      triFeatP p0 p1 p2 i j k := by
  have hs2 : (s ^ 2 : ℝ) ≠ 0 := by positivity
  unfold triFeatP
  simp only [d2_simT a b s t hab, argsort3_smul (ne_of_gt hs), vertexPick_map,
    edgeDot_simT a b s t hab, sideVal_smul]
  congr 1
  · -- the ratio field
    rw [mul_div_mul_left _ _ hs2]
  · -- the cosine field
    rw [show s ^ 2 * d2 (vertexPick p0 p1 p2 (commonVertex (argsort3 (d2 p0 p1) (d2 p1 p2) (d2 p0 p2)).1 (argsort3 (d2 p0 p1) (d2 p1 p2) (d2 p0 p2)).2.2)) (vertexPick p0 p1 p2 (commonVertex (argsort3 (d2 p0 p1) (d2 p1 p2) (d2 p0 p2)).1 (argsort3 (d2 p0 p1) (d2 p1 p2) (d2 p0 p2)).2.1)) *
        (s ^ 2 * d2 (vertexPick p0 p1 p2 (commonVertex (argsort3 (d2 p0 p1) (d2 p1 p2) (d2 p0 p2)).1 (argsort3 (d2 p0 p1) (d2 p1 p2) (d2 p0 p2)).2.2)) (vertexPick p0 p1 p2 (commonVertex (argsort3 (d2 p0 p1) (d2 p1 p2) (d2 p0 p2)).2.1 (argsort3 (d2 p0 p1) (d2 p1 p2) (d2 p0 p2)).2.2))) =
        (s ^ 2) ^ 2 * (d2 (vertexPick p0 p1 p2 (commonVertex (argsort3 (d2 p0 p1) (d2 p1 p2) (d2 p0 p2)).1 (argsort3 (d2 p0 p1) (d2 p1 p2) (d2 p0 p2)).2.2)) (vertexPick p0 p1 p2 (commonVertex (argsort3 (d2 p0 p1) (d2 p1 p2) (d2 p0 p2)).1 (argsort3 (d2 p0 p1) (d2 p1 p2) (d2 p0 p2)).2.1)) *
          d2 (vertexPick p0 p1 p2 (commonVertex (argsort3 (d2 p0 p1) (d2 p1 p2) (d2 p0 p2)).1 (argsort3 (d2 p0 p1) (d2 p1 p2) (d2 p0 p2)).2.2)) (vertexPick p0 p1 p2 (commonVertex (argsort3 (d2 p0 p1) (d2 p1 p2) (d2 p0 p2)).2.1 (argsort3 (d2 p0 p1) (d2 p1 p2) (d2 p0 p2)).2.2))) by ring]
    rw [Real.sqrt_mul (by positivity), Real.sqrt_sq (by positivity)]
    rw [mul_div_mul_left _ _ hs2]

lemma compute_triangles_simT (pts : List Pt) (a b s : ℝ) (t : Pt)
    (hab : a ^ 2 + b ^ 2 = 1) (hs : 0 < s) :
    compute_triangles (pts.map (simT a b s t)) = compute_triangles pts := by
  unfold compute_triangles
  rw [List.length_map]
  apply List.map_congr_left
  intro tr htr
  obtain ⟨h1, h2, h3⟩ := mem_triples htr
  have e1 : tr.1 < pts.length := by omega
  have e2 : tr.2.1 < pts.length := by omega
  have e3 : tr.2.2 < pts.length := by omega
  have g : ∀ (m : ℕ) (hm : m < pts.length),
      (pts.map (simT a b s t)).getD m (0, 0) = simT a b s t (pts.getD m (0, 0)) := by
    intro m hm
    rw [List.getD_eq_getElem _ _ (by simpa using hm), List.getElem_map,
      List.getD_eq_getElem _ _ hm]
  unfold triFeat
  rw [g _ e1, g _ e2, g _ e3, triFeatP_simT a b s t hab hs]

/-- **C6** Similarity invariance of the triangle descriptors: applying one
identical rigid rotation + translation + uniform positive scale to all points
leaves every triangle returned by `compute_triangles` — its canonical index
order and its `(r, c)` descriptor — unchanged (exact real arithmetic). -/
theorem claim6_similarity_invariance (pts : List Pt) (a b s : ℝ) (t : Pt)
    (hab : a ^ 2 + b ^ 2 = 1) (hs : 0 < s) :
    compute_triangles (pts.map (simT a b s t)) = compute_triangles pts :=
  compute_triangles_simT pts a b s t hab hs

/-- Witness for C6: a quarter rotation, scale 2, translation `(3,4)` on a
concrete 3-point set. -/
theorem claim6_similarity_invariance_witness :
    ((0 : ℝ) ^ 2 + (1 : ℝ) ^ 2 = 1) ∧ ((0 : ℝ) < 2) ∧
      compute_triangles (([((0 : ℝ), (0 : ℝ)), (1, 0), (0, 2)] : List Pt).map
          (simT 0 1 2 (3, 4))) =
        compute_triangles [((0 : ℝ), (0 : ℝ)), (1, 0), (0, 2)] :=
  ⟨by norm_num, by norm_num,
    claim6_similarity_invariance _ 0 1 2 (3, 4) (by norm_num) (by norm_num)⟩

/-! ## Missing metrology reference dataset -/

/-- **C8** If the metrology reference dataset file does not exist and no
metrology table is already cached, `findfiducials` fails with an I/O error
naming the file, and returns no (partial) spot table. -/
theorem claim8_missing_metrology_fatal (tx : Pt → Pt) (spots : List Spot) (sep : ℝ) :
    findfiducials tx none none spots sep =
      Except.error ("cannot find " ++ metrologyFilename) := rfl

/-! ## `argmin`, `min`, `argsort` correctness -/

lemma minList_le_getD : ∀ (l : List ℝ) (i : ℕ), i < l.length → minList l ≤ l.getD i 0
  | [a], 0, _ => le_refl a
  | a :: b :: rest, 0, _ => min_le_left _ _
  | a :: b :: rest, i + 1, h =>
    le_trans (min_le_right _ _) (minList_le_getD (b :: rest) i (by simpa using h))

lemma argminList_lt_length : ∀ (l : List ℝ), l ≠ [] → argminList l < l.length
  | [a], _ => by simp [argminList]
  | a :: b :: rest, _ => by
    unfold argminList
    split_ifs with h
    · simp
    · have := argminList_lt_length (b :: rest) (by simp)
      simpa using Nat.succ_lt_succ this

lemma getD_argminList : ∀ (l : List ℝ), l ≠ [] → l.getD (argminList l) 0 = minList l
  | [a], _ => by simp [argminList, minList]
  | a :: b :: rest, _ => by
    unfold argminList
    split_ifs with h
    · simp [minList, min_eq_left h]
    · have ih := getD_argminList (b :: rest) (by simp)
      have hm : minList (a :: b :: rest) = minList (b :: rest) := by
        simp [minList, min_eq_right (le_of_lt (lt_of_not_le h))]
      simpa [hm] using ih

lemma mem_withIdx {l : List ℝ} {p : ℝ × ℕ} (h : p ∈ withIdx l) :
    p.1 = l.getD p.2 0 ∧ p.2 < l.length := by
  unfold withIdx at h
  rw [List.mem_map] at h
  obtain ⟨⟨i, x⟩, hq, rfl⟩ := h
  rw [List.mk_mem_enum_iff_getElem?] at hq
  have hi : i < l.length := by
    by_contra hc
    rw [List.getElem?_eq_none (le_of_not_lt hc)] at hq
    exact Option.noConfusion hq
  dsimp only
  refine ⟨?_, hi⟩
  rw [List.getD_eq_getElem _ _ hi]
  rw [List.getElem?_eq_getElem hi] at hq
  exact (Option.some_injective _ hq).symm

lemma mem_sorted_withIdx {l : List ℝ} {p : ℝ × ℕ}
    (h : p ∈ (withIdx l).insertionSort byVal) : p.1 = l.getD p.2 0 ∧ p.2 < l.length :=
  mem_withIdx ((List.perm_insertionSort byVal (withIdx l)).mem_iff.mp h)

/-- `argsortList` lists the measured triangles in ascending order of their
best-match distance. -/
lemma argsortList_sorted (l : List ℝ) :
    (argsortList l).Pairwise fun p q => l.getD p 0 ≤ l.getD q 0 := by
  unfold argsortList
  rw [List.pairwise_map]
  have hs : ((withIdx l).insertionSort byVal).Pairwise byVal :=
    List.sorted_insertionSort byVal (withIdx l)
  exact hs.imp_of_mem fun {a b} ha hb hab => by
    have ha' := mem_sorted_withIdx ha
    have hb' := mem_sorted_withIdx hb
    rw [← ha'.1, ← hb'.1]
    exact hab

lemma argsortList_perm (l : List ℝ) :
    List.Perm (argsortList l) (List.range l.length) := by
  unfold argsortList
  have h1 : List.Perm (((withIdx l).insertionSort byVal).map Prod.snd)
      ((withIdx l).map Prod.snd) := (List.perm_insertionSort byVal (withIdx l)).map _
  have h2 : (withIdx l).map Prod.snd = List.range l.length := by
    unfold withIdx
    rw [List.map_map]
    have he : (Prod.snd ∘ fun p : ℕ × ℝ => (p.2, p.1)) = Prod.fst := rfl
    rw [he, List.enum_map_fst]
  rw [← h2]
  exact h1

/-! ## The greedy assignment loop -/

/-- If every remaining ranked triangle has best-match distance above `1e-3`,
the loop assigns nothing: it either skips (flat triangle) or stops. -/
lemma assignLoop_far (loc : ℤ) (pi1 : List ℕ) (ids2 : List ℤ) (t1 t2 : List TriFeat)
    (matched : List ℕ) (d2min : List ℝ) :
    ∀ (ranked : List ℕ) (st : AssignState),
      (∀ q ∈ ranked, d2min.getD q 0 > 1e-3) →
      assignLoop loc pi1 ids2 t1 t2 matched d2min ranked st = st
  | [], _, _ => rfl
  | p :: rest, st, h => by
    unfold assignLoop
    split_ifs with h1 h2
    · exact assignLoop_far loc pi1 ids2 t1 t2 matched d2min rest st
        fun q hq => h q (List.mem_cons_of_mem _ hq)
    · rfl
    · exact absurd (h p (List.mem_cons_self _ _)) h2

/-- **C2** The PinholeAssigner algorithm steps, exactly as the source
implements them: (1) the squared matching distance between a measured and a
metrology triangle is `(Δr)² + (Δc)² + (|cos12| − 1)²` with `cos12` the dot
product of the two unit first-canonical-side vectors; (2) `argmin` pairs each
measured triangle with a metrology triangle attaining the minimum distance of
its row; (3) the ranked processing order is ascending in best-match distance;
(4) a triangle with vertex-0 cosine above 0.9 is skipped without assigning;
(5) once the head of the (ascending) remaining ranked list exceeds `1e-3`
nothing further is ever assigned — processing effectively stops there; and
(6) an accepted triangle performs `assignStep` (writing the 3 metrology
`PINHOLE_ID`s of the matched triangle to its 3 measured points) and the loop
returns early as soon as every spot of the cluster carries a nonzero id. -/
theorem claim2_pinhole_assigner_steps
    (loc : ℤ) (pi1 : List ℕ) (ids2 : List ℤ) (t1 t2 : List TriFeat)
    (matched : List ℕ) (d2min : List ℝ) (xy1 xy2 : List Pt) (a b : TriFeat)
    (row : List ℝ) (hrow : row ≠ [])
    (p : ℕ) (rest : List ℕ) (st : AssignState) :
    (triDist2 xy1 xy2 a b =
        (a.r - b.r) ^ 2 + (a.c - b.c) ^ 2 +
          (|dotPt (firstSideUnit xy1 a) (firstSideUnit xy2 b)| - 1) ^ 2) ∧
    (row.getD (argminList row) 0 = minList row ∧ argminList row < row.length ∧
      ∀ i, i < row.length → minList row ≤ row.getD i 0) ∧
    ((argsortList d2min).Pairwise fun pp qq => d2min.getD pp 0 ≤ d2min.getD qq 0) ∧
    ((t1.getD p default).c > 0.9 →
      assignLoop loc pi1 ids2 t1 t2 matched d2min (p :: rest) st =
        assignLoop loc pi1 ids2 t1 t2 matched d2min rest st) ∧
    ((p :: rest).Pairwise (fun pp qq => d2min.getD pp 0 ≤ d2min.getD qq 0) →
      d2min.getD p 0 > 1e-3 →
      assignLoop loc pi1 ids2 t1 t2 matched d2min (p :: rest) st = st) ∧
    (¬ (t1.getD p default).c > 0.9 → ¬ d2min.getD p 0 > 1e-3 →
      assignLoop loc pi1 ids2 t1 t2 matched d2min (p :: rest) st =
        (if (assignStep loc pi1 ids2 t1 t2 matched p st).1.countP
              (fun z => decide (0 < z)) = pi1.length then
          assignStep loc pi1 ids2 t1 t2 matched p st
         else
          assignLoop loc pi1 ids2 t1 t2 matched d2min rest
            (assignStep loc pi1 ids2 t1 t2 matched p st))) := by
  refine ⟨rfl, ⟨getD_argminList row hrow, argminList_lt_length row hrow,
    fun i hi => minList_le_getD row i hi⟩, argsortList_sorted d2min, ?_, ?_, ?_⟩
  · intro h
    rw [assignLoop]
    rw [if_pos h]
  · intro hsorted hfar
    apply assignLoop_far
    intro q hq
    rcases List.mem_cons.mp hq with rfl | hq'
    · exact hfar
    · have := (List.pairwise_cons.mp hsorted).1 q hq'
      calc (1e-3 : ℝ) < d2min.getD p 0 := hfar
        _ ≤ d2min.getD q 0 := this
  · intro h1 h2
    rw [assignLoop]
    rw [if_neg h1, if_neg h2]

/-- Witness for C2 at concrete (degenerate but type-correct) inputs. -/
theorem claim2_pinhole_assigner_steps_witness :
    (([0] : List ℝ) ≠ []) ∧
    ((triDist2 [] [] default default =
        ((default : TriFeat).r - (default : TriFeat).r) ^ 2 +
          ((default : TriFeat).c - (default : TriFeat).c) ^ 2 +
          (|dotPt (firstSideUnit [] default) (firstSideUnit [] default)| - 1) ^ 2) ∧
      (([0] : List ℝ).getD (argminList [0]) 0 = minList [0] ∧
        argminList [0] < ([0] : List ℝ).length ∧
        ∀ i, i < ([0] : List ℝ).length → minList [0] ≤ ([0] : List ℝ).getD i 0) ∧
      ((argsortList []).Pairwise fun pp qq =>
        ([] : List ℝ).getD pp 0 ≤ ([] : List ℝ).getD qq 0) ∧
      ((([] : List TriFeat).getD 0 default).c > 0.9 →
        assignLoop 0 [] [] [] [] [] [] (0 :: []) ([], []) =
          assignLoop 0 [] [] [] [] [] [] [] ([], [])) ∧
      ((0 :: []).Pairwise (fun pp qq =>
          ([] : List ℝ).getD pp 0 ≤ ([] : List ℝ).getD qq 0) →
        ([] : List ℝ).getD 0 0 > 1e-3 →
        assignLoop 0 [] [] [] [] [] [] (0 :: []) ([], []) = ([], [])) ∧
      (¬ (([] : List TriFeat).getD 0 default).c > 0.9 →
        ¬ ([] : List ℝ).getD 0 0 > 1e-3 →
        assignLoop 0 [] [] [] [] [] [] (0 :: []) ([], []) =
          (if (assignStep 0 [] [] [] [] [] 0 ([], [])).1.countP
                (fun z => decide (0 < z)) = ([] : List ℕ).length then
            assignStep 0 [] [] [] [] [] 0 ([], [])
           else
            assignLoop 0 [] [] [] [] [] [] []
              (assignStep 0 [] [] [] [] [] 0 ([], []))))) :=
  ⟨by simp, claim2_pinhole_assigner_steps 0 [] [] [] [] [] [] [] [] default default
    [0] (by simp) 0 [] ([], [])⟩

/-! ## Which spots a cluster's assignment can touch -/

/-- The canonical vertex indices of a triangle are a rearrangement of the
original triple. -/
lemma triFeatP_index_mem (p0 p1 p2 : Pt) (i j k : ℕ) :
    ((triFeatP p0 p1 p2 i j k).i0 = i ∨ (triFeatP p0 p1 p2 i j k).i0 = j ∨
        (triFeatP p0 p1 p2 i j k).i0 = k) ∧
      ((triFeatP p0 p1 p2 i j k).i1 = i ∨ (triFeatP p0 p1 p2 i j k).i1 = j ∨
        (triFeatP p0 p1 p2 i j k).i1 = k) ∧
      ((triFeatP p0 p1 p2 i j k).i2 = i ∨ (triFeatP p0 p1 p2 i j k).i2 = j ∨
        (triFeatP p0 p1 p2 i j k).i2 = k) := by
  simp only [triFeatP, argsort3]
  split_ifs <;> simp [commonVertex, indexPick]

/-- Every triangle of `compute_triangles pts` carries vertex indices below
`pts.length`. -/
lemma compute_triangles_index_lt (pts : List Pt) :
    ∀ t ∈ compute_triangles pts,
      t.i0 < pts.length ∧ t.i1 < pts.length ∧ t.i2 < pts.length := by
  intro t ht
  unfold compute_triangles at ht
  rw [List.mem_map] at ht
  obtain ⟨tr, htr, rfl⟩ := ht
  obtain ⟨h1, h2, h3⟩ := mem_triples htr
  unfold triFeat
  obtain ⟨m0, m1, m2⟩ := triFeatP_index_mem (pts.getD tr.1 (0, 0)) (pts.getD tr.2.1 (0, 0))
    (pts.getD tr.2.2 (0, 0)) tr.1 tr.2.1 tr.2.2
  refine ⟨?_, ?_, ?_⟩
  · rcases m0 with h | h | h <;> omega
  · rcases m1 with h | h | h <;> omega
  · rcases m2 with h | h | h <;> omega

/-! ## Size and membership of the bounded query heap -/

lemma hswap_length (h : List (ℝ × ℕ)) (i j : ℕ) : (hswap h i j).length = h.length := by
  simp [hswap]

lemma siftUp_length : ∀ (i : ℕ) (h : List (ℝ × ℕ)), (siftUp h i).length = h.length := by
  intro i
  induction i using Nat.strong_induction_on with
  | _ i IH =>
    intro h
    rw [siftUp]
    split_ifs with h1 h2
    · rfl
    · rw [IH ((i - 1) / 2) (by omega), hswap_length]
    · rfl

lemma siftDown_length_aux : ∀ (n : ℕ) (h : List (ℝ × ℕ)) (i : ℕ), h.length - i ≤ n →
    (siftDown h i).length = h.length := by
  intro n
  induction n with
  | zero =>
    intro h i hn
    rw [siftDown]
    split_ifs with h1 h2 h3 h4 <;> first | rfl | omega
  | succ n IH =>
    intro h i hn
    rw [siftDown]
    split_ifs with h1 h2 h3 h4
    · rw [IH _ _ (by rw [hswap_length]; omega), hswap_length]
    · rfl
    · rw [IH _ _ (by rw [hswap_length]; omega), hswap_length]
    · rfl
    · rfl

lemma siftDown_length (h : List (ℝ × ℕ)) (i : ℕ) :
    (siftDown h i).length = h.length :=
  siftDown_length_aux (h.length - i) h i le_rfl

lemma getD_mem_of_lt (h : List (ℝ × ℕ)) (j : ℕ) (hj : j < h.length) :
    h.getD j (0, 0) ∈ h := by
  rw [List.getD_eq_getElem _ _ hj]
  exact List.getElem_mem hj

lemma hswap_subset (h : List (ℝ × ℕ)) (i j : ℕ) (hi : i < h.length)
    (hj : j < h.length) : ∀ x ∈ hswap h i j, x ∈ h := by
  intro x hx
  rcases List.mem_or_eq_of_mem_set hx with hx1 | rfl
  · rcases List.mem_or_eq_of_mem_set hx1 with hx2 | rfl
    · exact hx2
    · exact getD_mem_of_lt h j hj
  · exact getD_mem_of_lt h i hi

lemma siftUp_subset : ∀ (i : ℕ) (h : List (ℝ × ℕ)), i < h.length →
    ∀ x ∈ siftUp h i, x ∈ h := by
  intro i
  induction i using Nat.strong_induction_on with
  | _ i IH =>
    intro h hi x hx
    rw [siftUp] at hx
    split_ifs at hx with h1 h2
    · exact hx
    · exact hswap_subset h i _ hi (by omega) x
        (IH ((i - 1) / 2) (by omega) _ (by rw [hswap_length]; omega) x hx)
    · exact hx

lemma siftDown_subset_aux : ∀ (n : ℕ) (h : List (ℝ × ℕ)) (i : ℕ), h.length - i ≤ n →
    ∀ x ∈ siftDown h i, x ∈ h := by
  intro n
  induction n with
  | zero =>
    intro h i hn x hx
    rw [siftDown] at hx
    split_ifs at hx with h1 h2 h3 h4 <;> first | exact hx | omega
  | succ n IH =>
    intro h i hn x hx
    rw [siftDown] at hx
    split_ifs at hx with h1 h2 h3 h4
    · exact hswap_subset h i _ (by omega) (by omega) x
        (IH _ _ (by rw [hswap_length]; omega) x hx)
    · exact hx
    · exact hswap_subset h i _ (by omega) (by omega) x
        (IH _ _ (by rw [hswap_length]; omega) x hx)
    · exact hx
    · exact hx

lemma siftDown_subset (h : List (ℝ × ℕ)) (i : ℕ) : ∀ x ∈ siftDown h i, x ∈ h :=
  siftDown_subset_aux (h.length - i) h i le_rfl

lemma heapPush_length (h : List (ℝ × ℕ)) (x : ℝ × ℕ) :
    (heapPush h x).length = h.length + 1 := by
  unfold heapPush
  rw [siftUp_length]
  simp

lemma heapPush_subset (h : List (ℝ × ℕ)) (x : ℝ × ℕ) :
    ∀ y ∈ heapPush h x, y ∈ h ∨ y = x := by
  intro y hy
  unfold heapPush at hy
  have hmem := siftUp_subset h.length (h ++ [x]) (by simp) y hy
  rcases List.mem_append.mp hmem with h1 | h2
  · exact Or.inl h1
  · exact Or.inr (List.mem_singleton.mp h2)

/-- Folding candidates into the bounded heap keeps exactly
`min k (retained + newly passing)` elements: the heap grows by one per
passing candidate until it holds `k`, then replacements keep it at `k`. -/
lemma foldl_qpush_length (k : ℕ) (ub2 : ℝ) :
    ∀ (cs : List (ℝ × ℕ)) (h : List (ℝ × ℕ)), h.length ≤ k →
      (cs.foldl (qpush k ub2) h).length =
        min k (h.length + cs.countP fun x => decide (-x.1 < ub2))
  | [], h, hk => by
    simp only [List.foldl_nil, List.countP_nil]
    omega
  | c :: cs, h, hk => by
    rw [List.foldl_cons, qpush]
    split_ifs with hpass hlt hrep
    · rw [List.countP_cons_of_pos _ _ (by simpa using hpass),
        foldl_qpush_length k ub2 cs (heapPush h c) (by rw [heapPush_length]; omega),
        heapPush_length]
      omega
    · rw [List.countP_cons_of_pos _ _ (by simpa using hpass),
        foldl_qpush_length k ub2 cs (siftDown (h.set 0 c) 0)
          (by rw [siftDown_length, List.length_set]; omega),
        siftDown_length, List.length_set]
      omega
    · rw [List.countP_cons_of_pos _ _ (by simpa using hpass),
        foldl_qpush_length k ub2 cs h hk]
      omega
    · rw [List.countP_cons_of_neg _ _ (by simpa using hpass),
        foldl_qpush_length k ub2 cs h hk]

/-- Only candidates strictly inside the upper bound ever sit in the heap. -/
lemma foldl_qpush_pred (k : ℕ) (ub2 : ℝ) :
    ∀ (cs : List (ℝ × ℕ)) (h : List (ℝ × ℕ)), (∀ y ∈ h, -y.1 < ub2) →
      ∀ y ∈ cs.foldl (qpush k ub2) h, -y.1 < ub2
  | [], _, hh => hh
  | c :: cs, h, hh => by
    rw [List.foldl_cons, qpush]
    split_ifs with hpass hlt hrep
    · refine foldl_qpush_pred k ub2 cs _ ?_
      intro y hy
      rcases heapPush_subset h c y hy with h1 | rfl
      · exact hh y h1
      · exact hpass
    · refine foldl_qpush_pred k ub2 cs _ ?_
      intro y hy
      rcases List.mem_or_eq_of_mem_set (siftDown_subset _ _ y hy) with h1 | rfl
      · exact hh y h1
      · exact hpass
    · exact foldl_qpush_pred k ub2 cs h hh
    · exact foldl_qpush_pred k ub2 cs h hh

lemma heapPopAll_length : ∀ (n : ℕ) (h : List (ℝ × ℕ)), h.length ≤ n →
    (heapPopAll n h).length = h.length := by
  intro n
  induction n using Nat.strong_induction_on with
  | _ n IH =>
    intro h hn
    rw [heapPopAll]
    split_ifs with hz h1
    · simp only [List.length_nil]
      omega
    · rfl
    · simp only [List.length_cons]
      rw [IH (n - 1) (by omega) _ ?hlen]
      case hlen =>
        rw [siftDown_length]
        simp only [List.length_cons, List.length_dropLast, List.length_drop]
        omega
      rw [siftDown_length]
      simp only [List.length_cons, List.length_dropLast, List.length_drop]
      omega

lemma heapPopAll_subset : ∀ (n : ℕ) (h : List (ℝ × ℕ)), ∀ x ∈ heapPopAll n h, x ∈ h := by
  intro n
  induction n using Nat.strong_induction_on with
  | _ n IH =>
    intro h x hx
    rw [heapPopAll] at hx
    split_ifs at hx with hz h1
    · exact absurd hx (List.not_mem_nil x)
    · exact hx
    · rcases List.mem_cons.mp hx with rfl | hx2
      · exact getD_mem_of_lt h 0 (by omega)
      · have hmem := IH (n - 1) (by omega) _ x hx2
        rcases List.mem_cons.mp (siftDown_subset _ _ x hmem) with rfl | hx3
        · exact getD_mem_of_lt h (h.length - 1) (by omega)
        · exact List.drop_subset 1 h (List.dropLast_subset _ hx3)

lemma knnResult_length (k : ℕ) (ub2 : ℝ) (cands : List (ℝ × ℕ)) :
    (knnResult k ub2 cands).length =
      min k (cands.countP fun x => decide (-x.1 < ub2)) := by
  unfold knnResult
  rw [List.length_reverse, heapPopAll_length _ _ le_rfl,
    foldl_qpush_length k ub2 cands [] (by simp)]
  simp

lemma knnResult_pred (k : ℕ) (ub2 : ℝ) (cands : List (ℝ × ℕ)) :
    ∀ y ∈ knnResult k ub2 cands, -y.1 < ub2 := by
  intro y hy
  unfold knnResult at hy
  rw [List.mem_reverse] at hy
  exact foldl_qpush_pred k ub2 cands [] (by simp) y (heapPopAll_subset _ _ y hy)

/-- The `k = 4` nearest-neighbour query yields at most 4 cluster members. -/
lemma clusterIndices_length_le (pts : List Pt) (sep : ℝ) (i : ℕ) :
    (clusterIndices pts sep i).length ≤ 4 := by
  unfold clusterIndices neighborList
  rw [List.length_map]
  refine le_trans (List.length_filter_le _ _) ?_
  rw [List.length_map, knnResult_length]
  exact min_le_left _ _

lemma assignStep_spots_length (loc : ℤ) (pi1 : List ℕ) (ids2 : List ℤ)
    (t1 t2 : List TriFeat) (matched : List ℕ) (p : ℕ) (st : AssignState) :
    (assignStep loc pi1 ids2 t1 t2 matched p st).2.length = st.2.length := by
  simp only [assignStep, List.length_set]

lemma assignLoop_spots_length (loc : ℤ) (pi1 : List ℕ) (ids2 : List ℤ)
    (t1 t2 : List TriFeat) (matched : List ℕ) (d2min : List ℝ) :
    ∀ (ranked : List ℕ) (st : AssignState),
      (assignLoop loc pi1 ids2 t1 t2 matched d2min ranked st).2.length = st.2.length
  | [], _ => rfl
  | p :: rest, st => by
    rw [assignLoop]
    dsimp only
    split_ifs with h1 h2 h3
    · exact assignLoop_spots_length loc pi1 ids2 t1 t2 matched d2min rest st
    · rfl
    · exact assignStep_spots_length loc pi1 ids2 t1 t2 matched p st
    · rw [assignLoop_spots_length loc pi1 ids2 t1 t2 matched d2min rest _]
      exact assignStep_spots_length loc pi1 ids2 t1 t2 matched p st

lemma assignStep_untouched (loc : ℤ) (pi1 : List ℕ) (ids2 : List ℤ)
    (t1 t2 : List TriFeat) (matched : List ℕ) (p : ℕ) (st : AssignState) (j : ℕ)
    (hT : ∀ t ∈ t1, t.i0 < pi1.length ∧ t.i1 < pi1.length ∧ t.i2 < pi1.length)
    (hp : p < t1.length) (hj : j ∉ pi1) :
    (assignStep loc pi1 ids2 t1 t2 matched p st).2[j]? = st.2[j]? := by
  have ha : t1.getD p default ∈ t1 := by
    rw [List.getD_eq_getElem _ _ hp]; exact List.getElem_mem hp
  obtain ⟨h0, h1, h2⟩ := hT _ ha
  have g : ∀ m, m < pi1.length → pi1.getD m 0 ≠ j := by
    intro m hm he
    exact hj (he ▸ (by rw [List.getD_eq_getElem _ _ hm]; exact List.getElem_mem hm))
  simp only [assignStep]
  rw [List.getElem?_set_ne (g _ h2), List.getElem?_set_ne (g _ h1),
    List.getElem?_set_ne (g _ h0)]

lemma assignLoop_untouched (loc : ℤ) (pi1 : List ℕ) (ids2 : List ℤ)
    (t1 t2 : List TriFeat) (matched : List ℕ) (d2min : List ℝ) (j : ℕ)
    (hT : ∀ t ∈ t1, t.i0 < pi1.length ∧ t.i1 < pi1.length ∧ t.i2 < pi1.length)
    (hj : j ∉ pi1) :
    ∀ (ranked : List ℕ) (st : AssignState), (∀ p ∈ ranked, p < t1.length) →
      (assignLoop loc pi1 ids2 t1 t2 matched d2min ranked st).2[j]? = st.2[j]?
  | [], _, _ => rfl
  | p :: rest, st, hr => by
    have hrest : ∀ q ∈ rest, q < t1.length :=
      fun q hq => hr q (List.mem_cons_of_mem _ hq)
    have hp : p < t1.length := hr p (List.mem_cons_self _ _)
    rw [assignLoop]
    dsimp only
    split_ifs with h1 h2 h3
    · exact assignLoop_untouched loc pi1 ids2 t1 t2 matched d2min j hT hj rest st hrest
    · rfl
    · exact assignStep_untouched loc pi1 ids2 t1 t2 matched p st j hT hp hj
    · rw [assignLoop_untouched loc pi1 ids2 t1 t2 matched d2min j hT hj rest _ hrest]
      exact assignStep_untouched loc pi1 ids2 t1 t2 matched p st j hT hp hj

/-- `processCluster` leaves the spot table's length unchanged. -/
lemma processCluster_length (pinholesT : List PRow) (loc : ℤ) (pi1 : List ℕ)
    (spots : List Spot) :
    (processCluster pinholesT loc pi1 spots).length = spots.length := by
  unfold processCluster
  exact assignLoop_spots_length _ _ _ _ _ _ _ _ _

lemma mem_argsortList_lt {l : List ℝ} {p : ℕ} (hp : p ∈ argsortList l) : p < l.length := by
  have := (argsortList_perm l).mem_iff.mp hp
  simpa [List.mem_range] using this

/-- `processCluster` modifies only spots whose index lies in the cluster's
member list `pi1`. -/
lemma processCluster_untouched (pinholesT : List PRow) (loc : ℤ) (pi1 : List ℕ)
    (spots : List Spot) (j : ℕ) (hj : j ∉ pi1) :
    (processCluster pinholesT loc pi1 spots)[j]? = spots[j]? := by
  unfold processCluster
  refine assignLoop_untouched _ _ _ _ _ _ _ _ ?_ hj _ _ ?_
  · intro t ht
    have := compute_triangles_index_lt _ t ht
    simpa using this
  · intro p hp
    have := mem_argsortList_lt hp
    simpa using this

/-- **C9** Implicit 4-spot cluster cap: the spot set used for triangle
construction and pinhole assignment comes from the `k = 4` nearest-neighbour
query, so it has at most 4 members; consequently, processing one matched
(cluster, fiducial) pair can touch at most those ≤ 4 spots, and a fiducial
with more than 4 (distinct, positive) metrology pinholes always has at least
one pinhole id that is assigned to no spot at all. -/
theorem claim9_cluster_cap
    (pts : List Pt) (sep : ℝ) (i : ℕ) (pinholesT : List PRow) (loc : ℤ)
    (spots : List Spot)
    (h0 : ∀ s ∈ spots, s.pinhole = 0)
    (hnodup : ((pinholesT.filter fun m => decide (m.location = loc)).map PRow.pinhole).Nodup)
    (hpos : ∀ m ∈ pinholesT.filter (fun m => decide (m.location = loc)), 0 < m.pinhole)
    (hbig : 4 < (pinholesT.filter fun m => decide (m.location = loc)).length) :
    (clusterIndices pts sep i).length ≤ 4 ∧
      ∃ m ∈ pinholesT.filter (fun m => decide (m.location = loc)),
        ∀ s ∈ processCluster pinholesT loc (clusterIndices pts sep i) spots,
          s.pinhole ≠ m.pinhole := by
  refine ⟨clusterIndices_length_le pts sep i, ?_⟩
  set pi1 := clusterIndices pts sep i with hpi1
  set out := processCluster pinholesT loc pi1 spots with hout
  set rows2 := pinholesT.filter (fun m => decide (m.location = loc)) with hrows2
  set A : Finset ℤ := (pi1.map fun idx => (out.getD idx default).pinhole).toFinset with hA
  set B : Finset ℤ := (rows2.map PRow.pinhole).toFinset with hB
  have hAcard : A.card ≤ 4 := by
    refine le_trans (List.toFinset_card_le _) ?_
    rw [List.length_map]
    exact clusterIndices_length_le pts sep i
  have hBcard : 4 < B.card := by
    rw [hB, List.toFinset_card_of_nodup hnodup, List.length_map]
    exact hbig
  have hnotsub : ¬ B ⊆ A := fun hsub => absurd (Finset.card_le_card hsub) (by omega)
  obtain ⟨v, hvB, hvA⟩ := Finset.not_subset.mp hnotsub
  rw [hB, List.mem_toFinset, List.mem_map] at hvB
  obtain ⟨m, hm, rfl⟩ := hvB
  refine ⟨m, hm, ?_⟩
  intro s hs
  rw [List.mem_iff_getElem] at hs
  obtain ⟨jj, hjj, rfl⟩ := hs
  by_cases hjmem : jj ∈ pi1
  · intro he
    apply hvA
    rw [hA, List.mem_toFinset, List.mem_map]
    exact ⟨jj, hjmem, by rw [List.getD_eq_getElem _ _ hjj]; exact he⟩
  · have hun : out[jj]? = spots[jj]? :=
      processCluster_untouched pinholesT loc pi1 spots jj hjmem
    have hlen : out.length = spots.length :=
      processCluster_length pinholesT loc pi1 spots
    have hjj' : jj < spots.length := by rw [← hlen]; exact hjj
    rw [List.getElem?_eq_getElem hjj, List.getElem?_eq_getElem hjj'] at hun
    simp only [Option.some.injEq] at hun
    rw [hun]
    have h0' : spots[jj].pinhole = 0 := h0 _ (List.getElem_mem hjj')
    have hmp := hpos m hm
    intro he
    rw [h0'] at he
    omega

/-- Witness for C9: a single spot, one fiducial with 5 pinholes. -/
theorem claim9_cluster_cap_witness :
    (∀ s ∈ ([⟨0, 0, 0, 0⟩] : List Spot), s.pinhole = 0) ∧
    ((([⟨1, 1, (0, 0)⟩, ⟨1, 2, (1, 0)⟩, ⟨1, 3, (0, 1)⟩, ⟨1, 4, (1, 1)⟩,
        ⟨1, 5, (2, 2)⟩] : List PRow).filter fun m =>
          decide (m.location = 1)).map PRow.pinhole).Nodup ∧
    (∀ m ∈ ([⟨1, 1, (0, 0)⟩, ⟨1, 2, (1, 0)⟩, ⟨1, 3, (0, 1)⟩, ⟨1, 4, (1, 1)⟩,
        ⟨1, 5, (2, 2)⟩] : List PRow).filter (fun m => decide (m.location = 1)),
      0 < m.pinhole) ∧
    (4 < (([⟨1, 1, (0, 0)⟩, ⟨1, 2, (1, 0)⟩, ⟨1, 3, (0, 1)⟩, ⟨1, 4, (1, 1)⟩,
        ⟨1, 5, (2, 2)⟩] : List PRow).filter fun m => decide (m.location = 1)).length) ∧
    ((clusterIndices [((0 : ℝ), (0 : ℝ))] 7 0).length ≤ 4 ∧
      ∃ m ∈ ([⟨1, 1, (0, 0)⟩, ⟨1, 2, (1, 0)⟩, ⟨1, 3, (0, 1)⟩, ⟨1, 4, (1, 1)⟩,
          ⟨1, 5, (2, 2)⟩] : List PRow).filter (fun m => decide (m.location = 1)),
        ∀ s ∈ processCluster
            [⟨1, 1, (0, 0)⟩, ⟨1, 2, (1, 0)⟩, ⟨1, 3, (0, 1)⟩, ⟨1, 4, (1, 1)⟩,
              ⟨1, 5, (2, 2)⟩] 1 (clusterIndices [((0 : ℝ), (0 : ℝ))] 7 0)
            [⟨0, 0, 0, 0⟩],
          s.pinhole ≠ m.pinhole) := by
  have h0 : ∀ s ∈ ([⟨0, 0, 0, 0⟩] : List Spot), s.pinhole = 0 := by
    intro s hs
    rw [List.mem_singleton] at hs
    subst hs
    rfl
  have hnodup : ((([⟨1, 1, (0, 0)⟩, ⟨1, 2, (1, 0)⟩, ⟨1, 3, (0, 1)⟩, ⟨1, 4, (1, 1)⟩,
      ⟨1, 5, (2, 2)⟩] : List PRow).filter fun m =>
        decide (m.location = 1)).map PRow.pinhole).Nodup := by
    simp [List.filter]
  have hpos : ∀ m ∈ ([⟨1, 1, (0, 0)⟩, ⟨1, 2, (1, 0)⟩, ⟨1, 3, (0, 1)⟩, ⟨1, 4, (1, 1)⟩,
      ⟨1, 5, (2, 2)⟩] : List PRow).filter (fun m => decide (m.location = 1)),
      0 < m.pinhole := by
    intro m hm
    simp only [List.filter] at hm
    fin_cases hm <;> norm_num
  have hbig : 4 < (([⟨1, 1, (0, 0)⟩, ⟨1, 2, (1, 0)⟩, ⟨1, 3, (0, 1)⟩, ⟨1, 4, (1, 1)⟩,
      ⟨1, 5, (2, 2)⟩] : List PRow).filter fun m => decide (m.location = 1)).length := by
    simp [List.filter]
  exact ⟨h0, hnodup, hpos, hbig,
    claim9_cluster_cap [((0 : ℝ), (0 : ℝ))] 7 0 _ 1 _ h0 hnodup hpos hbig⟩

/-! ## The `LOCATION ≠ 0 ↔ PINHOLE_ID ≠ 0` invariant -/

lemma assignStep_invariant (loc : ℤ) (pi1 : List ℕ) (ids2 : List ℤ)
    (t1 t2 : List TriFeat) (matched : List ℕ) (p : ℕ) (st : AssignState)
    (hloc : loc ≠ 0) (hpos : ∀ v ∈ ids2, 0 < v)
    (hb0 : (t2.getD (matched.getD p 0) default).i0 < ids2.length)
    (hb1 : (t2.getD (matched.getD p 0) default).i1 < ids2.length)
    (hb2 : (t2.getD (matched.getD p 0) default).i2 < ids2.length)
    (hinv : ∀ s ∈ st.2, (s.location ≠ 0 ↔ s.pinhole ≠ 0)) :
    ∀ s ∈ (assignStep loc pi1 ids2 t1 t2 matched p st).2,
      (s.location ≠ 0 ↔ s.pinhole ≠ 0) := by
  intro s hs
  have hid : ∀ n, n < ids2.length → (0 : ℤ) < ids2.getD n 0 := by
    intro n hn
    rw [List.getD_eq_getElem _ _ hn]
    exact hpos _ (List.getElem_mem hn)
  simp only [assignStep] at hs
  rcases List.mem_or_eq_of_mem_set hs with hs2 | rfl
  · rcases List.mem_or_eq_of_mem_set hs2 with hs1 | rfl
    · rcases List.mem_or_eq_of_mem_set hs1 with hs0 | rfl
      · exact hinv s hs0
      · exact iff_of_true hloc (hid _ hb0).ne'
    · exact iff_of_true hloc (hid _ hb1).ne'
  · exact iff_of_true hloc (hid _ hb2).ne'

lemma assignLoop_invariant (loc : ℤ) (pi1 : List ℕ) (ids2 : List ℤ)
    (t1 t2 : List TriFeat) (matched : List ℕ) (d2min : List ℝ)
    (hloc : loc ≠ 0) (hpos : ∀ v ∈ ids2, 0 < v) :
    ∀ (ranked : List ℕ) (st : AssignState),
      (∀ p ∈ ranked,
        (t2.getD (matched.getD p 0) default).i0 < ids2.length ∧
          (t2.getD (matched.getD p 0) default).i1 < ids2.length ∧
          (t2.getD (matched.getD p 0) default).i2 < ids2.length) →
      (∀ s ∈ st.2, (s.location ≠ 0 ↔ s.pinhole ≠ 0)) →
      ∀ s ∈ (assignLoop loc pi1 ids2 t1 t2 matched d2min ranked st).2,
        (s.location ≠ 0 ↔ s.pinhole ≠ 0)
  | [], _, _, hinv => hinv
  | p :: rest, st, hb, hinv => by
    have hbp := hb p (List.mem_cons_self _ _)
    have hbrest := fun q hq => hb q (List.mem_cons_of_mem _ hq)
    have hstep := assignStep_invariant loc pi1 ids2 t1 t2 matched p st hloc hpos
      hbp.1 hbp.2.1 hbp.2.2 hinv
    rw [assignLoop]
    dsimp only
    split_ifs with h1 h2 h3
    · exact assignLoop_invariant loc pi1 ids2 t1 t2 matched d2min hloc hpos rest st
        hbrest hinv
    · exact hinv
    · exact hstep
    · exact assignLoop_invariant loc pi1 ids2 t1 t2 matched d2min hloc hpos rest _
        hbrest hstep

/-- Processing one matched pair preserves (and on the spots it writes,
establishes) the `LOCATION ≠ 0 ↔ PINHOLE_ID ≠ 0` invariant, provided the
fiducial's id is nonzero and the metrology table has positive pinhole ids
and at least one row at this fiducial's `LOCATION`. -/
lemma processCluster_invariant (pinholesT : List PRow) (loc : ℤ) (pi1 : List ℕ)
    (spots : List Spot)
    (hloc : loc ≠ 0)
    (hpinPos : ∀ m ∈ pinholesT, 0 < m.pinhole)
    (hne : pinholesT.filter (fun m => decide (m.location = loc)) ≠ [])
    (hinv : ∀ s ∈ spots, (s.location ≠ 0 ↔ s.pinhole ≠ 0)) :
    ∀ s ∈ processCluster pinholesT loc pi1 spots,
      (s.location ≠ 0 ↔ s.pinhole ≠ 0) := by
  unfold processCluster
  refine assignLoop_invariant loc pi1 _ _ _ _ _ hloc ?_ _ _ ?_ ?_
  · intro v hv
    rw [List.mem_map] at hv
    obtain ⟨m, hm, rfl⟩ := hv
    exact hpinPos m (List.mem_of_mem_filter hm)
  · intro p hp
    have hplt := mem_argsortList_lt hp
    rw [List.length_map] at hplt
    set rows2 := pinholesT.filter (fun m => decide (m.location = loc)) with hrows2
    set xy1 := pi1.map (fun i => ((spots.getD i default).x, (spots.getD i default).y))
      with hxy1
    set xy2 := rows2.map PRow.pos with hxy2
    have hr2pos : 0 < rows2.length := List.length_pos.mpr hne
    have hidslen : (rows2.map PRow.pinhole).length = rows2.length := List.length_map _ _
    by_cases ht2 : compute_triangles xy2 = []
    · rw [ht2]
      simp only [List.getD_nil]
      have h0 : (default : TriFeat).i0 = 0 := rfl
      have h1 : (default : TriFeat).i1 = 0 := rfl
      have h2 : (default : TriFeat).i2 = 0 := rfl
      rw [h0, h1, h2, hidslen]
      exact ⟨hr2pos, hr2pos, hr2pos⟩
    · have hmlen : p < ((compute_triangles xy1).map fun a =>
          argminList ((compute_triangles xy2).map fun b => triDist2 xy1 xy2 a b)).length := by
        rw [List.length_map]; exact hplt
      rw [List.getD_eq_getElem _ _ hmlen, List.getElem_map]
      have hrowne : ((compute_triangles xy2).map fun b =>
          triDist2 xy1 xy2 ((compute_triangles xy1)[p]) b) ≠ [] := by
        simpa using ht2
      have hidx : argminList ((compute_triangles xy2).map fun b =>
          triDist2 xy1 xy2 ((compute_triangles xy1)[p]) b) <
          (compute_triangles xy2).length := by
        have := argminList_lt_length _ hrowne
        rwa [List.length_map] at this
      rw [List.getD_eq_getElem _ _ hidx]
      have hbmem : (compute_triangles xy2)[argminList ((compute_triangles xy2).map
          fun b => triDist2 xy1 xy2 ((compute_triangles xy1)[p]) b)] ∈
          compute_triangles xy2 := List.getElem_mem hidx
      have hbnds := compute_triangles_index_lt xy2 _ hbmem
      rw [hidslen]
      have hxylen : xy2.length = rows2.length := List.length_map _ _
      rw [hxylen] at hbnds
      exact hbnds
  · exact hinv

/-- **C10** Implicit identity-pairing invariant: if all spots enter with
`LOCATION = 0` and `PINHOLE_ID = 0` (the state created when the columns are
absent) and the metrology table carries no zero `LOCATION`, then after
`findfiducials` runs, every spot has `LOCATION ≠ 0` iff `PINHOLE_ID ≠ 0`:
every accepted triangle writes both fields together, the pinhole ids written
come from the `PINHOLE_ID > 0`-filtered metrology table, and untouched spots
keep `(0, 0)`. -/
theorem claim10_identity_pairing (tx : Pt → Pt) (metrology : List MRow)
    (spots : List Spot) (sep : ℝ)
    (hinit : ∀ s ∈ spots, s.location = 0 ∧ s.pinhole = 0)
    (hlocs : ∀ m ∈ metrology, m.location ≠ 0) :
    ∀ s ∈ findfiducialsRun tx metrology spots sep,
      (s.location ≠ 0 ↔ s.pinhole ≠ 0) := by
  unfold findfiducialsRun
  set pinholesT := (metrology.filter fun m => decide (0 < m.pinhole)).map
    (fun m => (⟨m.location, m.pinhole, tx (m.xfp, m.yfp)⟩ : PRow)) with hP
  set fiducialsT := pinholesT.filter (fun m => decide (m.pinhole = 4)) with hF
  have hpinPos : ∀ mm ∈ pinholesT, 0 < mm.pinhole := by
    intro mm hmm
    rw [hP, List.mem_map] at hmm
    obtain ⟨m, hm, rfl⟩ := hmm
    have := List.of_mem_filter hm
    simpa using this
  have hlocP : ∀ mm ∈ pinholesT, mm.location ≠ 0 := by
    intro mm hmm
    rw [hP, List.mem_map] at hmm
    obtain ⟨m, hm, rfl⟩ := hmm
    exact hlocs m (List.mem_of_mem_filter hm)
  have hperpair : ∀ idx2 : ℕ, idx2 < fiducialsT.length →
      ((fiducialsT.getD idx2 default).location ≠ 0 ∧
        pinholesT.filter (fun m =>
          decide (m.location = (fiducialsT.getD idx2 default).location)) ≠ []) := by
    intro idx2 hidx2
    have hmemF : fiducialsT.getD idx2 default ∈ fiducialsT := by
      rw [List.getD_eq_getElem _ _ hidx2]
      exact List.getElem_mem hidx2
    have hmemP : fiducialsT.getD idx2 default ∈ pinholesT :=
      List.mem_of_mem_filter hmemF
    refine ⟨hlocP _ hmemP, ?_⟩
    apply List.ne_nil_of_mem (a := fiducialsT.getD idx2 default)
    rw [List.mem_filter]
    exact ⟨hmemP, by simp⟩
  have hinv0 : ∀ s ∈ spots, (s.location ≠ 0 ↔ s.pinhole ≠ 0) := by
    intro s hs
    rw [(hinit s hs).1, (hinit s hs).2]
  suffices H : ∀ (ps : List (ℕ × ℕ)) (sp : List Spot),
      (∀ pr ∈ ps, pr.2 < fiducialsT.length) →
      (∀ s ∈ sp, (s.location ≠ 0 ↔ s.pinhole ≠ 0)) →
      ∀ s ∈ ps.foldl (fun sp pr =>
          processCluster pinholesT ((fiducialsT.getD pr.2 default).location)
            (clusterIndices (spots.map fun s => (s.x, s.y)) sep
              ((fiducials_candidates (spots.map fun s => (s.x, s.y)) sep).getD pr.1 0))
            sp) sp,
        (s.location ≠ 0 ↔ s.pinhole ≠ 0) by
    apply H
    · intro pr hpr
      unfold matchedPairs at hpr
      rw [List.mem_map] at hpr
      obtain ⟨m, hm, rfl⟩ := hpr
      have := List.mem_range.mp (List.mem_of_mem_filter hm)
      simpa using this
    · exact hinv0
  intro ps
  induction ps with
  | nil =>
    intro sp _ hinv s hs
    exact hinv s hs
  | cons pr rest ih =>
    intro sp hps hinv
    rw [List.foldl_cons]
    refine ih _ (fun q hq => hps q (List.mem_cons_of_mem _ hq)) ?_
    have hpr2 := hps pr (List.mem_cons_self _ _)
    obtain ⟨hl, hn⟩ := hperpair pr.2 hpr2
    exact processCluster_invariant pinholesT _ _ sp hl hpinPos hn hinv

/-- Witness for C10 on the square scenario's spot table and metrology. -/
theorem claim10_identity_pairing_witness :
    (∀ s ∈ sqSpots, s.location = 0 ∧ s.pinhole = 0) ∧
      (∀ m ∈ sqMetrology, m.location ≠ 0) ∧
      ∀ s ∈ findfiducialsRun (fun p => p) sqMetrology sqSpots 7,
        (s.location ≠ 0 ↔ s.pinhole ≠ 0) := by
  have h1 : ∀ s ∈ sqSpots, s.location = 0 ∧ s.pinhole = 0 := by
    intro s hs
    simp only [sqSpots, List.mem_cons, List.not_mem_nil, or_false] at hs
    rcases hs with rfl | rfl | rfl | rfl <;> exact ⟨rfl, rfl⟩
  have h2 : ∀ m ∈ sqMetrology, m.location ≠ 0 := by
    intro m hm
    simp only [sqMetrology, List.mem_cons, List.not_mem_nil, or_false] at hm
    rcases hm with rfl | rfl | rfl | rfl <;> decide
  exact ⟨h1, h2, claim10_identity_pairing (fun p => p) sqMetrology sqSpots 7 h1 h2⟩

/-! ## Candidate detection -/

/-- Counting a downward-closed predicate on the first `k` elements of a
suitably ordered list is the capped count of the whole list. -/
lemma countP_take_of_sorted (P : ℝ × ℕ → Bool) :
    ∀ (l : List (ℝ × ℕ)) (k : ℕ),
      l.Pairwise (fun a b => P b = true → P a = true) →
      (l.take k).countP P = min k (l.countP P)
  | [], k, _ => by simp
  | a :: rest, 0, _ => by simp
  | a :: rest, k + 1, h => by
    obtain ⟨hab, hrest⟩ := List.pairwise_cons.mp h
    rw [List.take_succ_cons]
    by_cases hP : P a = true
    · rw [List.countP_cons_of_pos P _ hP, List.countP_cons_of_pos P _ hP,
        countP_take_of_sorted P rest k hrest]
      omega
    · have hz : rest.countP P = 0 :=
        List.countP_eq_zero.mpr fun b hb hPb => hP (hab b hb hPb)
      have hz' : (rest.take k).countP P = 0 := by
        rw [countP_take_of_sorted P rest k hrest, hz]
        simp
      rw [List.countP_cons_of_neg P _ hP, List.countP_cons_of_neg P _ hP, hz, hz']
      simp

/-- `number_of_neighbors` equals the number of spots strictly within
`separation`, capped at 4 (all spots within `separation` sort before any spot
at or beyond it, so the `k = 4` truncation only caps the count). -/
lemma numNeighbors_eq (pts : List Pt) (sep : ℝ) (i : ℕ) :
    numNeighbors pts sep i =
      min 4 ((pts.map fun q => dist2d (pts.getD i (0, 0)) q).countP
        fun dq => decide (dq < sep)) := by
  unfold numNeighbors neighborList
  rw [List.countP_map]
  rcases le_or_lt sep 0 with hsep | hsep
  · have hL : (knnResult 4 (sep ^ 2) (withIdx (pts.map fun q =>
        -(d2 (pts.getD i (0, 0)) q)))).countP
        ((fun p : ℝ × ℕ => decide (p.1 < sep)) ∘
          fun e => (Real.sqrt (-e.1), e.2)) = 0 := by
      refine List.countP_eq_zero.mpr ?_
      intro y _
      simp only [Function.comp_apply, decide_eq_true_eq, not_lt]
      exact le_trans hsep (Real.sqrt_nonneg _)
    have hR : (pts.map fun q => dist2d (pts.getD i (0, 0)) q).countP
        (fun dq => decide (dq < sep)) = 0 := by
      refine List.countP_eq_zero.mpr ?_
      intro dq hdq
      obtain ⟨q, _, rfl⟩ := List.mem_map.mp hdq
      simp only [decide_eq_true_eq, not_lt]
      exact le_trans hsep (Real.sqrt_nonneg _)
    rw [hL, hR]
    omega
  · have hall : ∀ y ∈ knnResult 4 (sep ^ 2) (withIdx (pts.map fun q =>
        -(d2 (pts.getD i (0, 0)) q))),
        ((fun p : ℝ × ℕ => decide (p.1 < sep)) ∘
          fun e => (Real.sqrt (-e.1), e.2)) y = true := by
      intro y hy
      simp only [Function.comp_apply, decide_eq_true_eq]
      exact (Real.sqrt_lt' hsep).mpr (knnResult_pred _ _ _ y hy)
    rw [List.countP_eq_length.mpr hall, knnResult_length]
    congr 1
    unfold withIdx
    rw [List.countP_map, List.countP_map]
    have hc : ((fun x : ℝ × ℕ => decide (-x.1 < sep ^ 2)) ∘
        fun p : ℕ × ℝ => (p.2, p.1)) =
        ((fun v : ℝ => decide (-v < sep ^ 2)) ∘ Prod.snd) := rfl
    rw [hc, ← List.countP_map, List.enum_map_snd, List.countP_map]
    refine List.countP_congr ?_
    intro q _
    simp only [Function.comp_apply, decide_eq_true_eq, neg_neg, dist2d]
    exact (Real.sqrt_lt' hsep).symm

/-- **C4** CandidateDetector rule: a spot is flagged iff at least 3 of its 4
nearest neighbours (itself included, at self-distance 0) lie within
`separation` — equivalently, iff at least 3 spots overall lie strictly within
`separation` of it, since the 4-nearest truncation only caps that count at 4;
in particular, for one isolated point plus a 4-point cluster with all mutual
distances below `separation`, exactly the cluster's 4 spots are flagged. -/
theorem claim4_candidate_rule :
    (∀ (pts : List Pt) (sep : ℝ) (i : ℕ),
      i ∈ fiducials_candidates pts sep ↔
        i < pts.length ∧ 3 ≤ numNeighbors pts sep i) ∧
    (∀ (pts : List Pt) (sep : ℝ) (i : ℕ),
      numNeighbors pts sep i =
        min 4 ((pts.map fun q => dist2d (pts.getD i (0, 0)) q).countP
          fun dq => decide (dq < sep))) ∧
    fiducials_candidates c4Pts 7 = [1, 2, 3, 4] := by
  refine ⟨?_, numNeighbors_eq, ?_⟩
  · intro pts sep i
    unfold fiducials_candidates
    rw [List.mem_filter, List.mem_range, decide_eq_true_eq]
  · have h0 : numNeighbors c4Pts 7 0 = 1 := by
      rw [numNeighbors_eq]; norm_num [c4Pts, dist2d, d2, List.countP_cons, Real.sqrt_lt']
    have h1 : numNeighbors c4Pts 7 1 = 4 := by
      rw [numNeighbors_eq]; norm_num [c4Pts, dist2d, d2, List.countP_cons, Real.sqrt_lt']
    have h2 : numNeighbors c4Pts 7 2 = 4 := by
      rw [numNeighbors_eq]; norm_num [c4Pts, dist2d, d2, List.countP_cons, Real.sqrt_lt']
    have h3 : numNeighbors c4Pts 7 3 = 4 := by
      rw [numNeighbors_eq]; norm_num [c4Pts, dist2d, d2, List.countP_cons, Real.sqrt_lt']
    have h4 : numNeighbors c4Pts 7 4 = 4 := by
      rw [numNeighbors_eq]; norm_num [c4Pts, dist2d, d2, List.countP_cons, Real.sqrt_lt']
    have hlen : c4Pts.length = 5 := rfl
    have hrange : List.range 5 = [0, 1, 2, 3, 4] := by decide
    unfold fiducials_candidates
    rw [hlen, hrange]
    simp [List.filter, h0, h1, h2, h3, h4]

/-! ## Pushing `Real.sqrt` out of the nearest-neighbour primitives

The KD-tree queries compare Euclidean distances; comparing the squared
distances is equivalent since `Real.sqrt` is monotone, which lets every
concrete query below be evaluated in rational arithmetic. -/

lemma minList_nonneg : ∀ (l : List ℝ), (∀ x ∈ l, 0 ≤ x) → 0 ≤ minList l
  | [], _ => le_refl 0
  | [a], h => h a (List.mem_singleton_self a)
  | a :: b :: rest, h =>
    le_min (h a (List.mem_cons_self _ _))
      (minList_nonneg (b :: rest) fun x hx => h x (List.mem_cons_of_mem _ hx))

lemma minList_map_sqrt : ∀ (l : List ℝ), (∀ x ∈ l, 0 ≤ x) →
    minList (l.map Real.sqrt) = Real.sqrt (minList l)
  | [], _ => by simp [minList, Real.sqrt_zero]
  | [a], _ => by simp [minList]
  | a :: b :: rest, h => by
    have hrest : ∀ x ∈ b :: rest, 0 ≤ x := fun x hx => h x (List.mem_cons_of_mem _ hx)
    have ih := minList_map_sqrt (b :: rest) hrest
    rw [show (a :: b :: rest).map Real.sqrt =
      Real.sqrt a :: (b :: rest).map Real.sqrt from rfl]
    rw [show minList (a :: b :: rest) = min a (minList (b :: rest)) from rfl]
    have hcons : ∃ c cs, (b :: rest).map Real.sqrt = c :: cs :=
      ⟨Real.sqrt b, rest.map Real.sqrt, rfl⟩
    obtain ⟨c, cs, hc⟩ := hcons
    rw [hc, show minList (Real.sqrt a :: c :: cs) = min (Real.sqrt a) (minList (c :: cs))
      from rfl, ← hc, ih]
    rcases le_total a (minList (b :: rest)) with hle | hle
    · rw [min_eq_left hle, min_eq_left (Real.sqrt_le_sqrt hle)]
    · rw [min_eq_right hle, min_eq_right (Real.sqrt_le_sqrt hle)]

lemma argminList_map_sqrt : ∀ (l : List ℝ), (∀ x ∈ l, 0 ≤ x) →
    argminList (l.map Real.sqrt) = argminList l
  | [], _ => rfl
  | [a], _ => rfl
  | a :: b :: rest, h => by
    have hrest : ∀ x ∈ b :: rest, 0 ≤ x := fun x hx => h x (List.mem_cons_of_mem _ hx)
    have ih := argminList_map_sqrt (b :: rest) hrest
    have hmn := minList_map_sqrt (b :: rest) hrest
    rw [show (a :: b :: rest).map Real.sqrt =
      Real.sqrt a :: Real.sqrt b :: rest.map Real.sqrt from rfl]
    rw [show argminList (Real.sqrt a :: Real.sqrt b :: rest.map Real.sqrt) =
      (if Real.sqrt a ≤ minList (Real.sqrt b :: rest.map Real.sqrt) then 0
       else argminList (Real.sqrt b :: rest.map Real.sqrt) + 1) from rfl]
    rw [show argminList (a :: b :: rest) =
      (if a ≤ minList (b :: rest) then 0 else argminList (b :: rest) + 1) from rfl]
    rw [show (Real.sqrt b :: rest.map Real.sqrt) = (b :: rest).map Real.sqrt from rfl,
      hmn, ih]
    have hiff : Real.sqrt a ≤ Real.sqrt (minList (b :: rest)) ↔ a ≤ minList (b :: rest) :=
      Real.sqrt_le_sqrt_iff (minList_nonneg _ hrest)
    rcases le_total a (minList (b :: rest)) with hle | hle
    · rw [if_pos hle, if_pos (hiff.mpr hle)]
    · rcases eq_or_lt_of_le hle with he | hlt
      · rw [if_pos he.ge, if_pos (hiff.mpr he.ge)]
      · rw [if_neg (not_le.mpr hlt), if_neg fun hcon => absurd (hiff.mp hcon)
          (not_le.mpr hlt)]

lemma orderedInsert_sqrtPair (x : ℝ × ℕ) :
    ∀ (s : List (ℝ × ℕ)), (∀ p ∈ s, 0 ≤ p.1) →
      (s.map fun p => (Real.sqrt p.1, p.2)).orderedInsert byVal
          (Real.sqrt x.1, x.2) =
        (s.orderedInsert byVal x).map fun p => (Real.sqrt p.1, p.2)
  | [], _ => rfl
  | b :: bs, hs => by
    have hb : (0 : ℝ) ≤ b.1 := hs b (List.mem_cons_self _ _)
    have hbs : ∀ p ∈ bs, (0 : ℝ) ≤ p.1 := fun p hp => hs p (List.mem_cons_of_mem _ hp)
    have hiff : byVal (Real.sqrt x.1, x.2) (Real.sqrt b.1, b.2) ↔ byVal x b :=
      Real.sqrt_le_sqrt_iff hb
    rw [show (b :: bs).map (fun p => (Real.sqrt p.1, p.2)) =
      (Real.sqrt b.1, b.2) :: bs.map (fun p => (Real.sqrt p.1, p.2)) from rfl]
    rw [List.orderedInsert, List.orderedInsert]
    by_cases hc : byVal x b
    · rw [if_pos hc, if_pos (hiff.mpr hc)]
      rfl
    · rw [if_neg hc, if_neg fun hcon => hc (hiff.mp hcon)]
      rw [show ((b :: bs.orderedInsert byVal x).map fun p => (Real.sqrt p.1, p.2)) =
        (Real.sqrt b.1, b.2) ::
          ((bs.orderedInsert byVal x).map fun p => (Real.sqrt p.1, p.2)) from rfl]
      rw [orderedInsert_sqrtPair x bs hbs]

lemma insertionSort_sqrtPair :
    ∀ (s : List (ℝ × ℕ)), (∀ p ∈ s, 0 ≤ p.1) →
      (s.map fun p => (Real.sqrt p.1, p.2)).insertionSort byVal =
        (s.insertionSort byVal).map fun p => (Real.sqrt p.1, p.2)
  | [], _ => rfl
  | x :: xs, hs => by
    have hx : (0 : ℝ) ≤ x.1 := hs x (List.mem_cons_self _ _)
    have hxs : ∀ p ∈ xs, (0 : ℝ) ≤ p.1 := fun p hp => hs p (List.mem_cons_of_mem _ hp)
    have hsorted : ∀ p ∈ xs.insertionSort byVal, (0 : ℝ) ≤ p.1 := fun p hp =>
      hxs p ((List.perm_insertionSort byVal xs).mem_iff.mp hp)
    rw [show (x :: xs).map (fun p => (Real.sqrt p.1, p.2)) =
      (Real.sqrt x.1, x.2) :: xs.map (fun p => (Real.sqrt p.1, p.2)) from rfl]
    rw [List.insertionSort, List.insertionSort]
    rw [insertionSort_sqrtPair xs hxs]
    exact orderedInsert_sqrtPair x _ hsorted

lemma withIdx_map (g : ℝ → ℝ) (l : List ℝ) :
    withIdx (l.map g) = (withIdx l).map fun p => (g p.1, p.2) := by
  unfold withIdx
  rw [List.enum_map, List.map_map, List.map_map]
  rfl

/-- The cluster member list: with a positive `separation`, the query's
upper-bound pruning already guarantees every retained neighbour passes the
`distance < separation` test, so the members are exactly the query's
retained indices in query order. -/
lemma clusterIndices_eval (pts : List Pt) (sep : ℝ) (hsep : 0 < sep) (i : ℕ) :
    clusterIndices pts sep i =
      (knnResult 4 (sep ^ 2)
        (withIdx (pts.map fun q => -(d2 (pts.getD i (0, 0)) q)))).map Prod.snd := by
  unfold clusterIndices neighborList
  rw [List.filter_map]
  have hf : (knnResult 4 (sep ^ 2) (withIdx (pts.map fun q =>
      -(d2 (pts.getD i (0, 0)) q)))).filter
      ((fun p : ℝ × ℕ => decide (p.1 < sep)) ∘
        fun e => (Real.sqrt (-e.1), e.2)) =
      knnResult 4 (sep ^ 2) (withIdx (pts.map fun q =>
        -(d2 (pts.getD i (0, 0)) q))) := by
    refine List.filter_eq_self.mpr ?_
    intro y hy
    simp only [Function.comp_apply, decide_eq_true_eq]
    exact (Real.sqrt_lt' hsep).mpr (knnResult_pred _ _ _ y hy)
  rw [hf, List.map_map]
  rfl

/-- The nearest-candidate query, evaluated on squared distances. -/
lemma nearestIdx_eval (cands : List Pt) (p : Pt) :
    nearestIdx cands p = argminList (cands.map fun q => d2 p q) := by
  unfold nearestIdx dist2d
  rw [show cands.map (fun q => Real.sqrt (d2 p q)) =
    (cands.map fun q => d2 p q).map Real.sqrt from by rw [List.map_map]; rfl]
  refine argminList_map_sqrt _ ?_
  intro x hx
  obtain ⟨q, _, rfl⟩ := List.mem_map.mp hx
  exact d2_nonneg p q

/-- The nearest-candidate distance, as the root of the least squared
distance. -/
lemma nearestDist_eval (cands : List Pt) (p : Pt) :
    nearestDist cands p = Real.sqrt (minList (cands.map fun q => d2 p q)) := by
  unfold nearestDist dist2d
  rw [show cands.map (fun q => Real.sqrt (d2 p q)) =
    (cands.map fun q => d2 p q).map Real.sqrt from by rw [List.map_map]; rfl]
  refine minList_map_sqrt _ ?_
  intro x hx
  obtain ⟨q, _, rfl⟩ := List.mem_map.mp hx
  exact d2_nonneg p q

/-! ## FiducialMatcher refinement rounds -/

lemma getD_map_of_lt {α β : Type} (f : α → β) (l : List α) (i : ℕ)
    (h : i < l.length) (d : β) (d' : α) :
    (l.map f).getD i d = f (l.getD i d') := by
  rw [List.getD_eq_getElem _ _ (by simpa using h), List.getElem_map,
    List.getD_eq_getElem _ _ h]

/-- A query that coincides with some candidate is matched to a candidate at
the same position, at distance 0. -/
lemma nearest_self (cands : List Pt) (q : Pt)
    (hq : ∃ m, m < cands.length ∧ cands.getD m (0, 0) = q) :
    cands.getD (nearestIdx cands q) (0, 0) = q ∧ nearestDist cands q = 0 := by
  obtain ⟨m, hm, hqm⟩ := hq
  set l := cands.map fun c => d2 q c with hl
  have hlen : l.length = cands.length := List.length_map _ _
  have hml : m < l.length := by rw [hlen]; exact hm
  have hlm : l.getD m 0 = 0 := by
    rw [hl, getD_map_of_lt _ _ _ hm _ (0, 0), hqm, d2_eq_zero_iff]
  have hnn : ∀ x ∈ l, 0 ≤ x := by
    intro x hx
    obtain ⟨c, _, rfl⟩ := List.mem_map.mp hx
    exact d2_nonneg q c
  have hmin : minList l = 0 := by
    refine le_antisymm ?_ (minList_nonneg l hnn)
    rw [← hlm]
    exact minList_le_getD l m hml
  have hlne : l ≠ [] := by
    intro hcon
    rw [hcon] at hml
    exact absurd hml (by simp)
  constructor
  · rw [nearestIdx_eval, ← hl]
    have hval : l.getD (argminList l) 0 = 0 := by
      rw [getD_argminList l hlne, hmin]
    have hargl : argminList l < cands.length := by
      rw [← hlen]; exact argminList_lt_length l hlne
    rw [hl, getD_map_of_lt _ _ _ hargl _ (0, 0)] at hval
    exact ((d2_eq_zero_iff _ _).mp hval).symm
  · rw [nearestDist_eval, ← hl, hmin, Real.sqrt_zero]

lemma sorted_replicate_le (n : ℕ) (c : ℝ) : (List.replicate n c).Sorted (· ≤ ·) := by
  induction n with
  | zero => simp
  | succ n ih =>
    rw [List.replicate_succ, List.sorted_cons]
    exact ⟨fun b hb => le_of_eq (List.eq_of_mem_replicate hb).symm, ih⟩

lemma getD_replicate (n i : ℕ) (hi : i < n) (c : ℝ) :
    (List.replicate n c).getD i 0 = c := by
  rw [List.getD_eq_getElem _ _ (by simpa using hi), List.getElem_replicate]

/-- `np.median` of a constant array is the constant. -/
lemma median_replicate (n : ℕ) (hn : n ≠ 0) (c : ℝ) :
    median (List.replicate n c) = c := by
  unfold median
  rw [(sorted_replicate_le n c).insertionSort_eq, List.length_replicate]
  by_cases hpar : n % 2 = 1
  · rw [if_pos hpar, getD_replicate _ _ (by omega)]
  · rw [if_neg hpar, getD_replicate _ _ (by omega), getD_replicate _ _ (by omega)]
    ring

lemma refineOnce_length (cands fids : List Pt) :
    (refineOnce cands fids).length = fids.length := by
  unfold refineOnce
  rw [List.length_map]

/-- If every fiducial's matched candidate sits exactly at the fiducial
position minus one common vector `v`, a refinement round subtracts exactly
`v` from every fiducial position. -/
lemma refineOnce_of_matched (cands fids : List Pt) (v : Pt) (hne : fids ≠ [])
    (h : ∀ m, m < fids.length →
      cands.getD (nearestIdx cands (fids.getD m (0, 0))) (0, 0) =
        ((fids.getD m (0, 0)).1 - v.1, (fids.getD m (0, 0)).2 - v.2)) :
    refineOnce cands fids = fids.map fun f => (f.1 - v.1, f.2 - v.2) := by
  simp only [refineOnce]
  have hmlen : (fids.map fun f => cands.getD (nearestIdx cands f) (0, 0)).length
      = fids.length := List.length_map _ _
  have hzlen : (fids.zip (fids.map fun f =>
      cands.getD (nearestIdx cands f) (0, 0))).length = fids.length := by
    rw [List.length_zip, hmlen, min_self]
  have hcomp : ∀ (g : Pt × Pt → ℝ) (w : ℝ),
      (∀ m, m < fids.length → g (fids.getD m (0, 0),
        cands.getD (nearestIdx cands (fids.getD m (0, 0))) (0, 0)) = w) →
      ((fids.zip (fids.map fun f => cands.getD (nearestIdx cands f) (0, 0))).map g) =
        List.replicate fids.length w := by
    intro g w hg
    have hglen : ((fids.zip (fids.map fun f =>
        cands.getD (nearestIdx cands f) (0, 0))).map g).length = fids.length := by
      rw [List.length_map, hzlen]
    rw [← hglen]
    rw [List.eq_replicate_length]
    intro b hb
    rw [List.mem_iff_getElem] at hb
    obtain ⟨mm, hmm, rfl⟩ := hb
    have hmm' : mm < fids.length := by
      rw [List.length_map, hzlen] at hmm
      exact hmm
    rw [List.getElem_map, List.getElem_zip, List.getElem_map]
    have e1 : fids[mm] = fids.getD mm (0, 0) := by
      rw [List.getD_eq_getElem _ _ hmm']
    rw [e1]
    exact hg mm hmm'
  rw [hcomp (fun p => p.1.1 - p.2.1) v.1
      (fun m hm => by rw [h m hm]; ring),
    hcomp (fun p => p.1.2 - p.2.2) v.2
      (fun m hm => by rw [h m hm]; ring),
    median_replicate _ (by simpa using hne) v.1,
    median_replicate _ (by simpa using hne) v.2]

/-- **C3 (counterexample)** The FiducialMatcher does *not* recover every
pure global translation: with candidates `(0,0), (1,0), (5,0)` and fiducials
shifted by exactly `(+100, 0)`, the initial nearest-neighbour matching is
wrong (all three fiducials match the candidate `(5,0)`), the median offset
under-corrects, and after the 2 refinement rounds the first fiducial still
sits at distance 1 (≥ 1e-6) from its nearest candidate. -/
theorem claim3_matcher_counterexample :
    (c3Fids = c3Cands.map fun p => (p.1 + 100, p.2 + 0)) ∧
    c3Fids.length = c3Cands.length ∧
    refinedFids c3Cands c3Fids = [(4, 0), (5, 0), (9, 0)] ∧
    nearestDist c3Cands ((refinedFids c3Cands c3Fids).getD 0 (0, 0)) = 1 ∧
    ¬ (∀ m, m < c3Fids.length →
        nearestDist c3Cands ((refinedFids c3Cands c3Fids).getD m (0, 0)) < 1e-6) := by
  have r1 : refineOnce c3Cands c3Fids = [(4, 0), (5, 0), (9, 0)] := by
    unfold refineOnce
    simp only [nearestIdx_eval]
    norm_num [c3Cands, c3Fids, d2, argminList, minList, min_def, median,
      List.insertionSort, List.orderedInsert, byVal]
  have r2 : refineOnce c3Cands [(4, 0), (5, 0), (9, 0)] = [(4, 0), (5, 0), (9, 0)] := by
    unfold refineOnce
    simp only [nearestIdx_eval]
    norm_num [c3Cands, d2, argminList, minList, min_def, median,
      List.insertionSort, List.orderedInsert, byVal]
  have rr : refinedFids c3Cands c3Fids = [(4, 0), (5, 0), (9, 0)] := by
    unfold refinedFids
    rw [r1, r2]
  have hd : nearestDist c3Cands ((refinedFids c3Cands c3Fids).getD 0 (0, 0)) = 1 := by
    rw [rr]
    rw [show (([(4, 0), (5, 0), (9, 0)] : List Pt).getD 0 (0, 0)) = (4, 0) from rfl]
    rw [nearestDist_eval]
    norm_num [c3Cands, d2, minList, min_def, Real.sqrt_one]
  refine ⟨by norm_num [c3Fids, c3Cands], rfl, rr, hd, ?_⟩
  intro hcon
  have h0 := hcon 0 (by norm_num [c3Fids])
  rw [hd] at h0
  norm_num at h0

/-- **C3 (amended)** FiducialMatcher exact recovery holds as soon as the
initial nearest-neighbour query already pairs each fiducial with its own
translated candidate (true whenever the translation is small compared to the
candidate spacing): the first round's per-axis median is then exactly the
translation, the fiducials land exactly on their candidates, the second
round's median is 0, and every residual matched distance is 0 < 1e-6. -/
theorem claim3_matcher_exact_recovery (cands fids : List Pt) (T : Pt)
    (hne : fids ≠ [])
    (hlen : fids.length = cands.length)
    (htrans : ∀ m, m < fids.length →
      fids.getD m (0, 0) =
        ((cands.getD m (0, 0)).1 + T.1, (cands.getD m (0, 0)).2 + T.2))
    (hinit : ∀ m, m < fids.length → nearestIdx cands (fids.getD m (0, 0)) = m) :
    ∀ m, m < fids.length →
      nearestDist cands ((refinedFids cands fids).getD m (0, 0)) < 1e-6 := by
  have r1 : refineOnce cands fids = fids.map fun f => (f.1 - T.1, f.2 - T.2) := by
    refine refineOnce_of_matched cands fids T hne ?_
    intro m hm
    rw [hinit m hm, htrans m hm]
    rw [Prod.ext_iff]
    constructor <;> dsimp <;> ring
  have h1 : ∀ m, m < fids.length →
      (refineOnce cands fids).getD m (0, 0) = cands.getD m (0, 0) := by
    intro m hm
    rw [r1, getD_map_of_lt _ _ _ hm _ (0, 0), htrans m hm]
    rw [Prod.ext_iff]
    constructor <;> dsimp <;> ring
  have hlen1 : (refineOnce cands fids).length = fids.length := refineOnce_length _ _
  have hne1 : refineOnce cands fids ≠ [] := by
    intro hcon
    rw [hcon] at hlen1
    exact hne (List.eq_nil_of_length_eq_zero hlen1.symm)
  have r2 : refineOnce cands (refineOnce cands fids) =
      (refineOnce cands fids).map fun f => (f.1 - (0 : ℝ), f.2 - (0 : ℝ)) := by
    refine refineOnce_of_matched cands _ (0, 0) hne1 ?_
    intro m hm
    rw [hlen1] at hm
    rw [h1 m hm]
    have hself := nearest_self cands (cands.getD m (0, 0))
      ⟨m, by rw [← hlen]; exact hm, rfl⟩
    rw [hself.1]
    rw [Prod.ext_iff]
    constructor <;> dsimp <;> ring
  intro m hm
  unfold refinedFids
  rw [r2, getD_map_of_lt _ _ _ (by rw [hlen1]; exact hm) _ (0, 0), h1 m hm]
  have hq : ((cands.getD m (0, 0)).1 - (0 : ℝ), (cands.getD m (0, 0)).2 - (0 : ℝ)) =
      cands.getD m (0, 0) := by
    rw [Prod.ext_iff]
    constructor <;> dsimp <;> ring
  rw [hq]
  have hself := nearest_self cands (cands.getD m (0, 0))
    ⟨m, by rw [← hlen]; exact hm, rfl⟩
  rw [hself.2]
  norm_num

/-- Witness for the amended C3 at a concrete translated pair of point sets. -/
theorem claim3_matcher_exact_recovery_witness :
    (([(3 + 1/4, 4), (4 + 1/4, 4)] : List Pt) ≠ []) ∧
    (([(3 + 1/4, 4), (4 + 1/4, 4)] : List Pt).length = ([(3, 4), (4, 4)] : List Pt).length) ∧
    (∀ m, m < ([(3 + 1/4, 4), (4 + 1/4, 4)] : List Pt).length →
      ([(3 + 1/4, 4), (4 + 1/4, 4)] : List Pt).getD m (0, 0) =
        ((([(3, 4), (4, 4)] : List Pt).getD m (0, 0)).1 + (1/4 : ℝ),
          ((([(3, 4), (4, 4)] : List Pt).getD m (0, 0)).2 + (0 : ℝ)))) ∧
    (∀ m, m < ([(3 + 1/4, 4), (4 + 1/4, 4)] : List Pt).length →
      nearestIdx [(3, 4), (4, 4)] (([(3 + 1/4, 4), (4 + 1/4, 4)] : List Pt).getD m (0, 0)) = m) ∧
    ∀ m, m < ([(3 + 1/4, 4), (4 + 1/4, 4)] : List Pt).length →
      nearestDist [(3, 4), (4, 4)]
        ((refinedFids [(3, 4), (4, 4)] [(3 + 1/4, 4), (4 + 1/4, 4)]).getD m (0, 0)) < 1e-6 := by
  have hne : ([(3 + 1/4, 4), (4 + 1/4, 4)] : List Pt) ≠ [] := by simp
  have hlen : ([(3 + 1/4, 4), (4 + 1/4, 4)] : List Pt).length =
      ([(3, 4), (4, 4)] : List Pt).length := rfl
  have htrans : ∀ m, m < ([(3 + 1/4, 4), (4 + 1/4, 4)] : List Pt).length →
      ([(3 + 1/4, 4), (4 + 1/4, 4)] : List Pt).getD m (0, 0) =
        ((([(3, 4), (4, 4)] : List Pt).getD m (0, 0)).1 + (1/4 : ℝ),
          ((([(3, 4), (4, 4)] : List Pt).getD m (0, 0)).2 + (0 : ℝ))) := by
    intro m hm
    have hm2 : m < 2 := by simpa using hm
    interval_cases m <;> norm_num
  have hinit : ∀ m, m < ([(3 + 1/4, 4), (4 + 1/4, 4)] : List Pt).length →
      nearestIdx [(3, 4), (4, 4)] (([(3 + 1/4, 4), (4 + 1/4, 4)] : List Pt).getD m (0, 0)) = m := by
    intro m hm
    have hm2 : m < 2 := by simpa using hm
    interval_cases m <;>
      · rw [nearestIdx_eval]
        norm_num [d2, argminList, minList, min_def]
  exact ⟨hne, hlen, htrans, hinit,
    claim3_matcher_exact_recovery [(3, 4), (4, 4)] [(3 + 1/4, 4), (4 + 1/4, 4)] (1/4, 0)
      hne hlen htrans hinit⟩

/-! ## The end-to-end square scenario

The spec's synthetic fiducial is a perfect unit square (centre dot at a
corner), so its four triangles are congruent right isosceles triangles:
`r = √2` and `c = 1/√2` for all of them, and the matching distance
discriminates only through the `(|cos12| - 1)²` term, which vanishes both
for parallel and for anti-parallel first sides.  The evaluation below traces
the resulting mis-assignment. -/

lemma triples4 : triples 4 = [(0, 1, 2), (0, 1, 3), (0, 2, 3), (1, 2, 3)] := by decide

lemma ct4gen (pts : List Pt) (h : pts.length = 4) :
    compute_triangles pts =
      [triFeat pts 0 1 2, triFeat pts 0 1 3, triFeat pts 0 2 3, triFeat pts 1 2 3] := by
  unfold compute_triangles
  rw [h, triples4]
  rfl

lemma sqT2 : compute_triangles [((0 : ℝ), (0 : ℝ)), (1, 0), (0, 1), (1, 1)] =
    [⟨1, 0, 2, Real.sqrt 2, 1 / Real.sqrt 2⟩, ⟨0, 1, 3, Real.sqrt 2, 1 / Real.sqrt 2⟩,
     ⟨0, 2, 3, Real.sqrt 2, 1 / Real.sqrt 2⟩, ⟨2, 3, 1, Real.sqrt 2, 1 / Real.sqrt 2⟩] := by
  rw [ct4gen [((0 : ℝ), (0 : ℝ)), (1, 0), (0, 1), (1, 1)] rfl]
  have hA : triFeat [((0 : ℝ), (0 : ℝ)), (1, 0), (0, 1), (1, 1)] 0 1 2 =
      ⟨1, 0, 2, Real.sqrt 2, 1 / Real.sqrt 2⟩ := by
    norm_num [triFeat, triFeatP, d2, argsort3, commonVertex, sideVal, vertexPick,
      indexPick, edgeDot]
  have hB : triFeat [((0 : ℝ), (0 : ℝ)), (1, 0), (0, 1), (1, 1)] 0 1 3 =
      ⟨0, 1, 3, Real.sqrt 2, 1 / Real.sqrt 2⟩ := by
    norm_num [triFeat, triFeatP, d2, argsort3, commonVertex, sideVal, vertexPick,
      indexPick, edgeDot]
  have hC : triFeat [((0 : ℝ), (0 : ℝ)), (1, 0), (0, 1), (1, 1)] 0 2 3 =
      ⟨0, 2, 3, Real.sqrt 2, 1 / Real.sqrt 2⟩ := by
    norm_num [triFeat, triFeatP, d2, argsort3, commonVertex, sideVal, vertexPick,
      indexPick, edgeDot]
  have hD : triFeat [((0 : ℝ), (0 : ℝ)), (1, 0), (0, 1), (1, 1)] 1 2 3 =
      ⟨2, 3, 1, Real.sqrt 2, 1 / Real.sqrt 2⟩ := by
    norm_num [triFeat, triFeatP, d2, argsort3, commonVertex, sideVal, vertexPick,
      indexPick, edgeDot]
  rw [hA, hB, hC, hD]

/-- The measured cluster's triangles over the query-ordered positions
`pi1 = [0, 2, 1, 3]`, i.e. `xy1 = [(100,50), (100,51), (101,50), (101,51)]`. -/
lemma sqT1 : compute_triangles [((100 : ℝ), (50 : ℝ)), (100, 51), (101, 50), (101, 51)] =
    [⟨1, 0, 2, Real.sqrt 2, 1 / Real.sqrt 2⟩, ⟨0, 1, 3, Real.sqrt 2, 1 / Real.sqrt 2⟩,
     ⟨0, 2, 3, Real.sqrt 2, 1 / Real.sqrt 2⟩, ⟨2, 3, 1, Real.sqrt 2, 1 / Real.sqrt 2⟩] := by
  rw [ct4gen [((100 : ℝ), (50 : ℝ)), (100, 51), (101, 50), (101, 51)] rfl]
  have hA : triFeat [((100 : ℝ), (50 : ℝ)), (100, 51), (101, 50), (101, 51)] 0 1 2 =
      ⟨1, 0, 2, Real.sqrt 2, 1 / Real.sqrt 2⟩ := by
    norm_num [triFeat, triFeatP, d2, argsort3, commonVertex, sideVal, vertexPick,
      indexPick, edgeDot]
  have hB : triFeat [((100 : ℝ), (50 : ℝ)), (100, 51), (101, 50), (101, 51)] 0 1 3 =
      ⟨0, 1, 3, Real.sqrt 2, 1 / Real.sqrt 2⟩ := by
    norm_num [triFeat, triFeatP, d2, argsort3, commonVertex, sideVal, vertexPick,
      indexPick, edgeDot]
  have hC : triFeat [((100 : ℝ), (50 : ℝ)), (100, 51), (101, 50), (101, 51)] 0 2 3 =
      ⟨0, 2, 3, Real.sqrt 2, 1 / Real.sqrt 2⟩ := by
    norm_num [triFeat, triFeatP, d2, argsort3, commonVertex, sideVal, vertexPick,
      indexPick, edgeDot]
  have hD : triFeat [((100 : ℝ), (50 : ℝ)), (100, 51), (101, 50), (101, 51)] 1 2 3 =
      ⟨2, 3, 1, Real.sqrt 2, 1 / Real.sqrt 2⟩ := by
    norm_num [triFeat, triFeatP, d2, argsort3, commonVertex, sideVal, vertexPick,
      indexPick, edgeDot]
  rw [hA, hB, hC, hD]

lemma uA2 : firstSideUnit [((0 : ℝ), (0 : ℝ)), (1, 0), (0, 1), (1, 1)]
    ⟨1, 0, 2, Real.sqrt 2, 1 / Real.sqrt 2⟩ = (-1, 0) := by
  norm_num [firstSideUnit]

lemma uB2 : firstSideUnit [((0 : ℝ), (0 : ℝ)), (1, 0), (0, 1), (1, 1)]
    ⟨0, 1, 3, Real.sqrt 2, 1 / Real.sqrt 2⟩ = (1, 0) := by
  norm_num [firstSideUnit]

lemma uC2 : firstSideUnit [((0 : ℝ), (0 : ℝ)), (1, 0), (0, 1), (1, 1)]
    ⟨0, 2, 3, Real.sqrt 2, 1 / Real.sqrt 2⟩ = (0, 1) := by
  norm_num [firstSideUnit]

lemma uD2 : firstSideUnit [((0 : ℝ), (0 : ℝ)), (1, 0), (0, 1), (1, 1)]
    ⟨2, 3, 1, Real.sqrt 2, 1 / Real.sqrt 2⟩ = (1, 0) := by
  norm_num [firstSideUnit]

lemma uA1 : firstSideUnit [((100 : ℝ), (50 : ℝ)), (100, 51), (101, 50), (101, 51)]
    ⟨1, 0, 2, Real.sqrt 2, 1 / Real.sqrt 2⟩ = (0, -1) := by
  norm_num [firstSideUnit]

lemma uB1 : firstSideUnit [((100 : ℝ), (50 : ℝ)), (100, 51), (101, 50), (101, 51)]
    ⟨0, 1, 3, Real.sqrt 2, 1 / Real.sqrt 2⟩ = (0, 1) := by
  norm_num [firstSideUnit]

lemma uC1 : firstSideUnit [((100 : ℝ), (50 : ℝ)), (100, 51), (101, 50), (101, 51)]
    ⟨0, 2, 3, Real.sqrt 2, 1 / Real.sqrt 2⟩ = (1, 0) := by
  norm_num [firstSideUnit]

lemma uD1 : firstSideUnit [((100 : ℝ), (50 : ℝ)), (100, 51), (101, 50), (101, 51)]
    ⟨2, 3, 1, Real.sqrt 2, 1 / Real.sqrt 2⟩ = (0, 1) := by
  norm_num [firstSideUnit]

lemma sqCands : fiducials_candidates
    [((100 : ℝ), (50 : ℝ)), (101, 50), (100, 51), (101, 51)] 7 = [0, 1, 2, 3] := by
  have h0 : numNeighbors [((100 : ℝ), (50 : ℝ)), (101, 50), (100, 51), (101, 51)] 7 0 = 4 := by
    rw [numNeighbors_eq]; norm_num [dist2d, d2, List.countP_cons, Real.sqrt_lt']
  have h1 : numNeighbors [((100 : ℝ), (50 : ℝ)), (101, 50), (100, 51), (101, 51)] 7 1 = 4 := by
    rw [numNeighbors_eq]; norm_num [dist2d, d2, List.countP_cons, Real.sqrt_lt']
  have h2 : numNeighbors [((100 : ℝ), (50 : ℝ)), (101, 50), (100, 51), (101, 51)] 7 2 = 4 := by
    rw [numNeighbors_eq]; norm_num [dist2d, d2, List.countP_cons, Real.sqrt_lt']
  have h3 : numNeighbors [((100 : ℝ), (50 : ℝ)), (101, 50), (100, 51), (101, 51)] 7 3 = 4 := by
    rw [numNeighbors_eq]; norm_num [dist2d, d2, List.countP_cons, Real.sqrt_lt']
  have hrange : List.range 4 = [0, 1, 2, 3] := by decide
  unfold fiducials_candidates
  rw [show ([((100 : ℝ), (50 : ℝ)), (101, 50), (100, 51), (101, 51)] : List Pt).length = 4
    from rfl, hrange]
  simp [List.filter, h0, h1, h2, h3]

/-! Concrete runs of the bounded-heap query.  For the square cluster, spot
0's priorities are `[0, -1, -1, -2]`; the two neighbours tied at distance 1
come back in heap order `2, 1`, not index order. -/

lemma sqQp0 : qpush 4 49 [] (0 : ℝ × ℕ) = [0] := by
  rw [qpush, heapPush]
  norm_num
  repeat (rw [siftUp]; norm_num [hswap])

lemma sqQp1 : qpush 4 49 [(0 : ℝ × ℕ)] (-1, 1) = [(-1, 1), 0] := by
  rw [qpush, heapPush]
  norm_num
  repeat (rw [siftUp]; norm_num [hswap])

lemma sqQp2 : qpush 4 49 [((-1 : ℝ), (1 : ℕ)), 0] (-1, 2) =
    [(-1, 1), 0, (-1, 2)] := by
  rw [qpush, heapPush]
  norm_num
  repeat (rw [siftUp]; norm_num [hswap])

lemma sqQp3 : qpush 4 49 [((-1 : ℝ), (1 : ℕ)), 0, (-1, 2)] (-2, 3) =
    [(-2, 3), (-1, 1), (-1, 2), 0] := by
  rw [qpush, heapPush]
  norm_num
  repeat (rw [siftUp]; norm_num [hswap])

lemma sqSd1 : siftDown [(0 : ℝ × ℕ), (-1, 1), (-1, 2)] 0 =
    [(-1, 1), 0, (-1, 2)] := by
  repeat (rw [siftDown]; norm_num [hswap])

lemma sqSd2 : siftDown [((-1 : ℝ), (2 : ℕ)), 0] 0 = [(-1, 2), 0] := by
  repeat (rw [siftDown]; norm_num [hswap])

lemma sdZero : siftDown [(0 : ℝ × ℕ)] 0 = [0] := by
  rw [siftDown]
  norm_num

lemma sqPop : heapPopAll 4 [((-2 : ℝ), (3 : ℕ)), (-1, 1), (-1, 2), 0] =
    [(-2, 3), (-1, 1), (-1, 2), 0] := by
  rw [heapPopAll]
  norm_num
  rw [sqSd1, heapPopAll]
  norm_num
  rw [sqSd2, heapPopAll]
  norm_num
  rw [sdZero, heapPopAll]
  norm_num

lemma sqKnn : (knnResult 4 49 [(0 : ℝ × ℕ), (-1, 1), (-1, 2), (-2, 3)]).map Prod.snd =
    [0, 2, 1, 3] := by
  have hfold : ([(0 : ℝ × ℕ), (-1, 1), (-1, 2), (-2, 3)] : List (ℝ × ℕ)).foldl
      (qpush 4 49) [] = [(-2, 3), (-1, 1), (-1, 2), 0] := by
    rw [List.foldl_cons, sqQp0, List.foldl_cons, sqQp1, List.foldl_cons, sqQp2,
      List.foldl_cons, sqQp3, List.foldl_nil]
  unfold knnResult
  rw [hfold]
  norm_num [sqPop]

/-- The square cluster of spot 0, in scipy's query order: the tied spots 1
and 2 come out as `2, 1`. -/
lemma sqPi1 : clusterIndices
    [((100 : ℝ), (50 : ℝ)), (101, 50), (100, 51), (101, 51)] 7 0 = [0, 2, 1, 3] := by
  rw [clusterIndices_eval _ _ (by norm_num)]
  have harg : withIdx (([((100 : ℝ), (50 : ℝ)), (101, 50), (100, 51), (101, 51)] :
      List Pt).map fun q =>
        -(d2 (([((100 : ℝ), (50 : ℝ)), (101, 50), (100, 51), (101, 51)] :
          List Pt).getD 0 (0, 0)) q)) =
      [(0 : ℝ × ℕ), (-1, 1), (-1, 2), (-2, 3)] := by
    norm_num [withIdx, d2, List.enum, List.enumFrom]
  rw [show ((7 : ℝ) ^ 2) = 49 from by norm_num, harg]
  exact sqKnn

lemma sqPairs : matchedPairs [((100 : ℝ), (50 : ℝ)), (101, 50), (100, 51), (101, 51)]
    [((0 : ℝ), (0 : ℝ))] = [(0, 0)] := by
  have r1 : refineOnce [((100 : ℝ), (50 : ℝ)), (101, 50), (100, 51), (101, 51)]
      [((0 : ℝ), (0 : ℝ))] = [(100, 50)] := by
    unfold refineOnce
    simp only [nearestIdx_eval]
    norm_num [d2, argminList, minList, min_def, median,
      List.insertionSort, List.orderedInsert, byVal]
  have r2 : refineOnce [((100 : ℝ), (50 : ℝ)), (101, 50), (100, 51), (101, 51)]
      [((100 : ℝ), (50 : ℝ))] = [(100, 50)] := by
    unfold refineOnce
    simp only [nearestIdx_eval]
    norm_num [d2, argminList, minList, min_def, median,
      List.insertionSort, List.orderedInsert, byVal]
  unfold matchedPairs refinedFids
  rw [r1, r2]
  simp only [nearestIdx_eval, nearestDist_eval]
  norm_num [maxdistance, d2, argminList, minList, min_def, List.filter]

lemma inv_sqrt2_le : (1 : ℝ) / Real.sqrt 2 ≤ 0.9 := by
  have h2 : (0 : ℝ) < Real.sqrt 2 := Real.sqrt_pos.mpr (by norm_num)
  rw [div_le_iff₀ h2]
  have h3 : (10 / 9 : ℝ) ≤ Real.sqrt 2 :=
    (Real.le_sqrt (by norm_num) (by norm_num)).mpr (by norm_num)
  nlinarith

lemma inv_sqrt2_not_gt : ¬ ((9 / 10 : ℝ) < (Real.sqrt 2)⁻¹) := by
  intro h
  apply absurd inv_sqrt2_le
  rw [one_div, not_le]
  calc (0.9 : ℝ) = 9 / 10 := by norm_num
    _ < (Real.sqrt 2)⁻¹ := h

lemma sqLoop : assignLoop 1 [0, 2, 1, 3] [4, 1, 2, 3]
    [⟨1, 0, 2, Real.sqrt 2, 1 / Real.sqrt 2⟩, ⟨0, 1, 3, Real.sqrt 2, 1 / Real.sqrt 2⟩,
     ⟨0, 2, 3, Real.sqrt 2, 1 / Real.sqrt 2⟩, ⟨2, 3, 1, Real.sqrt 2, 1 / Real.sqrt 2⟩]
    [⟨1, 0, 2, Real.sqrt 2, 1 / Real.sqrt 2⟩, ⟨0, 1, 3, Real.sqrt 2, 1 / Real.sqrt 2⟩,
     ⟨0, 2, 3, Real.sqrt 2, 1 / Real.sqrt 2⟩, ⟨2, 3, 1, Real.sqrt 2, 1 / Real.sqrt 2⟩]
    [2, 2, 0, 2] [0, 0, 0, 0] [0, 1, 2, 3] ([0, 0, 0, 0], sqSpots) =
    ([4, 2, 3, 3],
     [⟨100, 50, 1, 4⟩, ⟨101, 50, 1, 3⟩, ⟨100, 51, 1, 2⟩, ⟨101, 51, 1, 3⟩]) := by
  norm_num [assignLoop, assignStep, sqSpots, List.set, List.countP, List.countP.go,
    inv_sqrt2_not_gt]

lemma sqMatched :
    ([⟨1, 0, 2, Real.sqrt 2, 1 / Real.sqrt 2⟩, ⟨0, 1, 3, Real.sqrt 2, 1 / Real.sqrt 2⟩,
      ⟨0, 2, 3, Real.sqrt 2, 1 / Real.sqrt 2⟩, ⟨2, 3, 1, Real.sqrt 2, 1 / Real.sqrt 2⟩] :
        List TriFeat).map (fun a => argminList
      (([⟨1, 0, 2, Real.sqrt 2, 1 / Real.sqrt 2⟩, ⟨0, 1, 3, Real.sqrt 2, 1 / Real.sqrt 2⟩,
         ⟨0, 2, 3, Real.sqrt 2, 1 / Real.sqrt 2⟩, ⟨2, 3, 1, Real.sqrt 2, 1 / Real.sqrt 2⟩] :
          List TriFeat).map (fun b =>
        triDist2 [((100 : ℝ), (50 : ℝ)), (100, 51), (101, 50), (101, 51)]
          [((0 : ℝ), (0 : ℝ)), (1, 0), (0, 1), (1, 1)] a b))) = [2, 2, 0, 2] := by
  simp only [List.map_cons, List.map_nil, triDist2, uA1, uB1, uC1, uD1, uA2, uB2, uC2, uD2]
  norm_num [dotPt, argminList, minList, min_def]

lemma sqD2min :
    ([⟨1, 0, 2, Real.sqrt 2, 1 / Real.sqrt 2⟩, ⟨0, 1, 3, Real.sqrt 2, 1 / Real.sqrt 2⟩,
      ⟨0, 2, 3, Real.sqrt 2, 1 / Real.sqrt 2⟩, ⟨2, 3, 1, Real.sqrt 2, 1 / Real.sqrt 2⟩] :
        List TriFeat).map (fun a => minList
      (([⟨1, 0, 2, Real.sqrt 2, 1 / Real.sqrt 2⟩, ⟨0, 1, 3, Real.sqrt 2, 1 / Real.sqrt 2⟩,
         ⟨0, 2, 3, Real.sqrt 2, 1 / Real.sqrt 2⟩, ⟨2, 3, 1, Real.sqrt 2, 1 / Real.sqrt 2⟩] :
          List TriFeat).map (fun b =>
        triDist2 [((100 : ℝ), (50 : ℝ)), (100, 51), (101, 50), (101, 51)]
          [((0 : ℝ), (0 : ℝ)), (1, 0), (0, 1), (1, 1)] a b))) = [0, 0, 0, 0] := by
  simp only [List.map_cons, List.map_nil, triDist2, uA1, uB1, uC1, uD1, uA2, uB2, uC2, uD2]
  norm_num [dotPt, minList, min_def]

lemma sqRanked : argsortList [(0 : ℝ), 0, 0, 0] = [0, 1, 2, 3] := by
  norm_num [argsortList, withIdx, List.enum, List.enumFrom, List.insertionSort,
    List.orderedInsert, byVal]

lemma sqProcess :
    processCluster [⟨1, 4, (0, 0)⟩, ⟨1, 1, (1, 0)⟩, ⟨1, 2, (0, 1)⟩, ⟨1, 3, (1, 1)⟩] 1
      [0, 2, 1, 3] sqSpots =
    [⟨100, 50, 1, 4⟩, ⟨101, 50, 1, 3⟩, ⟨100, 51, 1, 2⟩, ⟨101, 51, 1, 3⟩] := by
  have hxy1 : ([0, 2, 1, 3] : List ℕ).map
      (fun i => ((sqSpots.getD i default).x, (sqSpots.getD i default).y)) =
      [((100 : ℝ), (50 : ℝ)), (100, 51), (101, 50), (101, 51)] := rfl
  have hrows : ([⟨1, 4, (0, 0)⟩, ⟨1, 1, (1, 0)⟩, ⟨1, 2, (0, 1)⟩, ⟨1, 3, (1, 1)⟩] :
      List PRow).filter (fun m => decide (m.location = 1)) =
      [⟨1, 4, (0, 0)⟩, ⟨1, 1, (1, 0)⟩, ⟨1, 2, (0, 1)⟩, ⟨1, 3, (1, 1)⟩] := rfl
  have hxy2 : ([⟨1, 4, (0, 0)⟩, ⟨1, 1, (1, 0)⟩, ⟨1, 2, (0, 1)⟩, ⟨1, 3, (1, 1)⟩] :
      List PRow).map PRow.pos = [((0 : ℝ), (0 : ℝ)), (1, 0), (0, 1), (1, 1)] := rfl
  have hids : ([⟨1, 4, (0, 0)⟩, ⟨1, 1, (1, 0)⟩, ⟨1, 2, (0, 1)⟩, ⟨1, 3, (1, 1)⟩] :
      List PRow).map PRow.pinhole = [4, 1, 2, 3] := rfl
  have hrep : List.replicate ([0, 2, 1, 3] : List ℕ).length (0 : ℤ) = [0, 0, 0, 0] := rfl
  simp only [processCluster, hxy1, hrows, hxy2, hids, hrep]
  rw [sqT1, sqT2, sqMatched, sqD2min, sqRanked]
  exact congrArg Prod.snd sqLoop

/-- The full pipeline on the spec's square scenario: the measured spots at
`(100,50), (101,50), (100,51), (101,51)` receive `PINHOLE_ID`s `4, 3, 2, 3` —
not the expected `4, 1, 2, 3` — because the square's symmetry makes all four
triangles congruent: the measured triangles on canonical vertices `(0,1,3)`
(in cluster order) tie at matching distance 0 with the metrology triangle on
`(0,2,3)` whose first side is (anti-)parallel, `np.argmin` keeps the first
such tie, and the mismatched vertex correspondence writes pinhole id 3 onto
two different spots while id 1 is never assigned. -/
lemma sqRun : findfiducialsRun (fun p => p) sqMetrology sqSpots 7 =
    [⟨100, 50, 1, 4⟩, ⟨101, 50, 1, 3⟩, ⟨100, 51, 1, 2⟩, ⟨101, 51, 1, 3⟩] := by
  have hpin : ((sqMetrology.filter fun m => decide (0 < m.pinhole)).map
      fun m => (⟨m.location, m.pinhole, (m.xfp, m.yfp)⟩ : PRow)) =
      [⟨1, 4, (0, 0)⟩, ⟨1, 1, (1, 0)⟩, ⟨1, 2, (0, 1)⟩, ⟨1, 3, (1, 1)⟩] := rfl
  have hfid : ([⟨1, 4, (0, 0)⟩, ⟨1, 1, (1, 0)⟩, ⟨1, 2, (0, 1)⟩, ⟨1, 3, (1, 1)⟩] :
      List PRow).filter (fun m => decide (m.pinhole = 4)) = [⟨1, 4, (0, 0)⟩] := rfl
  have hxy : sqSpots.map (fun s => (s.x, s.y)) =
      [((100 : ℝ), (50 : ℝ)), (101, 50), (100, 51), (101, 51)] := rfl
  have hcandp : ([0, 1, 2, 3] : List ℕ).map
      (fun i => ([((100 : ℝ), (50 : ℝ)), (101, 50), (100, 51), (101, 51)] :
        List Pt).getD i (0, 0)) =
      [((100 : ℝ), (50 : ℝ)), (101, 50), (100, 51), (101, 51)] := rfl
  have hfpos : ([⟨1, 4, (0, 0)⟩] : List PRow).map PRow.pos = [((0 : ℝ), (0 : ℝ))] := rfl
  simp only [findfiducialsRun, hpin, hfid, hxy, sqCands, hcandp, hfpos, sqPairs]
  simp only [List.foldl_cons, List.foldl_nil]
  have hg1 : ([0, 1, 2, 3] : List ℕ).getD 0 0 = 0 := rfl
  have hg2 : (([⟨1, 4, (0, 0)⟩] : List PRow).getD 0 default).location = 1 := rfl
  rw [hg1, hg2, sqPi1, sqProcess]

/-! ## The asymmetric end-to-end scenario

Same pipeline on a fiducial whose four triangles have pairwise distinct
side-length ratios, so every measured triangle matches exactly its true
metrology counterpart and identification succeeds. -/

lemma minList_pos : ∀ (l : List ℝ), (∀ x ∈ l, 0 < x) → l ≠ [] → 0 < minList l
  | [a], h, _ => h a (List.mem_singleton_self a)
  | a :: b :: rest, h, _ =>
    lt_min (h a (List.mem_cons_self _ _))
      (minList_pos (b :: rest) (fun x hx => h x (List.mem_cons_of_mem _ hx)) (by simp))

/-- `np.argmin` at the unique zero of a nonnegative row. -/
lemma argminList_eq_of_unique_zero :
    ∀ (l : List ℝ) (i : ℕ), i < l.length → l.getD i 0 = 0 →
      (∀ j, j < l.length → j ≠ i → 0 < l.getD j 0) →
      argminList l = i ∧ minList l = 0
  | [a], 0, _, h0, _ => ⟨rfl, h0⟩
  | a :: b :: rest, 0, _, h0, hj => by
    have htpos : ∀ x ∈ b :: rest, 0 < x := by
      intro x hx
      rw [List.mem_iff_getElem] at hx
      obtain ⟨k, hk, rfl⟩ := hx
      have := hj (k + 1) (by simpa using Nat.succ_lt_succ hk) (by omega)
      rwa [show (a :: b :: rest).getD (k + 1) 0 = (b :: rest).getD k 0 from rfl,
        List.getD_eq_getElem _ _ hk] at this
    have hmt : 0 < minList (b :: rest) := minList_pos _ htpos (by simp)
    have ha : a = 0 := h0
    constructor
    · rw [show argminList (a :: b :: rest) =
        (if a ≤ minList (b :: rest) then 0 else argminList (b :: rest) + 1) from rfl]
      rw [if_pos (by rw [ha]; exact hmt.le)]
    · rw [show minList (a :: b :: rest) = min a (minList (b :: rest)) from rfl, ha]
      exact min_eq_left hmt.le
  | a :: b :: rest, i + 1, hi, h0, hj => by
    have ha : 0 < a := hj 0 (by simp) (by omega)
    have ih := argminList_eq_of_unique_zero (b :: rest) i (by simpa using hi) h0
      (fun j hjlt hne => hj (j + 1) (by simpa using Nat.succ_lt_succ hjlt) (by omega))
    constructor
    · rw [show argminList (a :: b :: rest) =
        (if a ≤ minList (b :: rest) then 0 else argminList (b :: rest) + 1) from rfl]
      rw [if_neg (by rw [ih.2]; exact not_le.mpr ha), ih.1]
    · rw [show minList (a :: b :: rest) = min a (minList (b :: rest)) from rfl, ih.2]
      exact min_eq_right ha.le

/-- A triangle pair with different side-length ratios has positive matching
distance. -/
lemma triDist2_pos_of_r_ne (xy1 xy2 : List Pt) (a b : TriFeat) (h : a.r ≠ b.r) :
    0 < triDist2 xy1 xy2 a b := by
  unfold triDist2
  have h1 : 0 < (a.r - b.r) ^ 2 := pow_two_pos_of_ne_zero (sub_ne_zero.mpr h)
  have h2 : 0 ≤ (a.c - b.c) ^ 2 := sq_nonneg _
  have h3 : 0 ≤ (|dotPt (firstSideUnit xy1 a) (firstSideUnit xy2 b)| - 1) ^ 2 :=
    sq_nonneg _
  linarith

lemma sqrt_ne_sqrt {x y : ℝ} (hx : 0 ≤ x) (hy : 0 ≤ y) (h : x ≠ y) :
    Real.sqrt x ≠ Real.sqrt y := fun hc => h ((Real.sqrt_inj hx hy).mp hc)


lemma sqrt_four : Real.sqrt 4 = 2 := by
  rw [show (4 : ℝ) = 2 ^ 2 by norm_num, Real.sqrt_sq (by norm_num : (0 : ℝ) ≤ 2)]

lemma asymT2 : compute_triangles [((0 : ℝ), (0 : ℝ)), (1, 0), (0, 2), (2, 3)] =
    [⟨1, 0, 2, Real.sqrt 5, 1 / Real.sqrt 5⟩,
     ⟨0, 1, 3, Real.sqrt 13, 2 / Real.sqrt 13⟩,
     ⟨0, 2, 3, Real.sqrt (13 / 4), 6 / Real.sqrt 52⟩,
     ⟨1, 2, 3, Real.sqrt 2, 5 / Real.sqrt 50⟩] := by
  rw [ct4gen [((0 : ℝ), (0 : ℝ)), (1, 0), (0, 2), (2, 3)] rfl]
  have hA : triFeat [((0 : ℝ), (0 : ℝ)), (1, 0), (0, 2), (2, 3)] 0 1 2 =
      ⟨1, 0, 2, Real.sqrt 5, 1 / Real.sqrt 5⟩ := by
    norm_num [triFeat, triFeatP, d2, argsort3, commonVertex, sideVal, vertexPick,
      indexPick, edgeDot]
  have hB : triFeat [((0 : ℝ), (0 : ℝ)), (1, 0), (0, 2), (2, 3)] 0 1 3 =
      ⟨0, 1, 3, Real.sqrt 13, 2 / Real.sqrt 13⟩ := by
    norm_num [triFeat, triFeatP, d2, argsort3, commonVertex, sideVal, vertexPick,
      indexPick, edgeDot]
  have hC : triFeat [((0 : ℝ), (0 : ℝ)), (1, 0), (0, 2), (2, 3)] 0 2 3 =
      ⟨0, 2, 3, Real.sqrt (13 / 4), 6 / Real.sqrt 52⟩ := by
    norm_num [triFeat, triFeatP, d2, argsort3, commonVertex, sideVal, vertexPick,
      indexPick, edgeDot]
  have hD : triFeat [((0 : ℝ), (0 : ℝ)), (1, 0), (0, 2), (2, 3)] 1 2 3 =
      ⟨1, 2, 3, Real.sqrt 2, 5 / Real.sqrt 50⟩ := by
    norm_num [triFeat, triFeatP, d2, argsort3, commonVertex, sideVal, vertexPick,
      indexPick, edgeDot]
  rw [hA, hB, hC, hD]

lemma asymXY1 : ([((100 : ℝ), (50 : ℝ)), (101, 50), (100, 52), (102, 53)] : List Pt) =
    ([((0 : ℝ), (0 : ℝ)), (1, 0), (0, 2), (2, 3)] : List Pt).map (simT 1 0 1 (100, 50)) := by
  norm_num [simT]

lemma asymT1 : compute_triangles [((100 : ℝ), (50 : ℝ)), (101, 50), (100, 52), (102, 53)] =
    [⟨1, 0, 2, Real.sqrt 5, 1 / Real.sqrt 5⟩,
     ⟨0, 1, 3, Real.sqrt 13, 2 / Real.sqrt 13⟩,
     ⟨0, 2, 3, Real.sqrt (13 / 4), 6 / Real.sqrt 52⟩,
     ⟨1, 2, 3, Real.sqrt 2, 5 / Real.sqrt 50⟩] := by
  rw [asymXY1, compute_triangles_simT _ _ _ _ _ (by norm_num) (by norm_num), asymT2]

lemma uA2a : firstSideUnit [((0 : ℝ), (0 : ℝ)), (1, 0), (0, 2), (2, 3)]
    ⟨1, 0, 2, Real.sqrt 5, 1 / Real.sqrt 5⟩ = (-1, 0) := by
  norm_num [firstSideUnit]

lemma uB2a : firstSideUnit [((0 : ℝ), (0 : ℝ)), (1, 0), (0, 2), (2, 3)]
    ⟨0, 1, 3, Real.sqrt 13, 2 / Real.sqrt 13⟩ = (1, 0) := by
  norm_num [firstSideUnit]

lemma uC2a : firstSideUnit [((0 : ℝ), (0 : ℝ)), (1, 0), (0, 2), (2, 3)]
    ⟨0, 2, 3, Real.sqrt (13 / 4), 6 / Real.sqrt 52⟩ = (0, 1) := by
  norm_num [firstSideUnit, sqrt_four]

lemma uD2a : firstSideUnit [((0 : ℝ), (0 : ℝ)), (1, 0), (0, 2), (2, 3)]
    ⟨1, 2, 3, Real.sqrt 2, 5 / Real.sqrt 50⟩ = (-1 / Real.sqrt 5, 2 / Real.sqrt 5) := by
  norm_num [firstSideUnit]

lemma uA1a : firstSideUnit [((100 : ℝ), (50 : ℝ)), (101, 50), (100, 52), (102, 53)]
    ⟨1, 0, 2, Real.sqrt 5, 1 / Real.sqrt 5⟩ = (-1, 0) := by
  norm_num [firstSideUnit]

lemma uB1a : firstSideUnit [((100 : ℝ), (50 : ℝ)), (101, 50), (100, 52), (102, 53)]
    ⟨0, 1, 3, Real.sqrt 13, 2 / Real.sqrt 13⟩ = (1, 0) := by
  norm_num [firstSideUnit]

lemma uC1a : firstSideUnit [((100 : ℝ), (50 : ℝ)), (101, 50), (100, 52), (102, 53)]
    ⟨0, 2, 3, Real.sqrt (13 / 4), 6 / Real.sqrt 52⟩ = (0, 1) := by
  norm_num [firstSideUnit, sqrt_four]

lemma uD1a : firstSideUnit [((100 : ℝ), (50 : ℝ)), (101, 50), (100, 52), (102, 53)]
    ⟨1, 2, 3, Real.sqrt 2, 5 / Real.sqrt 50⟩ = (-1 / Real.sqrt 5, 2 / Real.sqrt 5) := by
  norm_num [firstSideUnit]

lemma r_ne_AB : Real.sqrt 5 ≠ Real.sqrt 13 :=
  sqrt_ne_sqrt (by norm_num) (by norm_num) (by norm_num)

lemma r_ne_AC : Real.sqrt 5 ≠ Real.sqrt (13 / 4) :=
  sqrt_ne_sqrt (by norm_num) (by norm_num) (by norm_num)

lemma r_ne_AD : Real.sqrt 5 ≠ Real.sqrt 2 :=
  sqrt_ne_sqrt (by norm_num) (by norm_num) (by norm_num)

lemma r_ne_BC : Real.sqrt 13 ≠ Real.sqrt (13 / 4) :=
  sqrt_ne_sqrt (by norm_num) (by norm_num) (by norm_num)

lemma r_ne_BD : Real.sqrt 13 ≠ Real.sqrt 2 :=
  sqrt_ne_sqrt (by norm_num) (by norm_num) (by norm_num)

lemma r_ne_CD : Real.sqrt (13 / 4) ≠ Real.sqrt 2 :=
  sqrt_ne_sqrt (by norm_num) (by norm_num) (by norm_num)

lemma zAA : triDist2 [((100 : ℝ), (50 : ℝ)), (101, 50), (100, 52), (102, 53)]
    [((0 : ℝ), (0 : ℝ)), (1, 0), (0, 2), (2, 3)]
    ⟨1, 0, 2, Real.sqrt 5, 1 / Real.sqrt 5⟩ ⟨1, 0, 2, Real.sqrt 5, 1 / Real.sqrt 5⟩ = 0 := by
  simp only [triDist2, uA1a, uA2a]
  norm_num [dotPt]

lemma zBB : triDist2 [((100 : ℝ), (50 : ℝ)), (101, 50), (100, 52), (102, 53)]
    [((0 : ℝ), (0 : ℝ)), (1, 0), (0, 2), (2, 3)]
    ⟨0, 1, 3, Real.sqrt 13, 2 / Real.sqrt 13⟩ ⟨0, 1, 3, Real.sqrt 13, 2 / Real.sqrt 13⟩ = 0 := by
  simp only [triDist2, uB1a, uB2a]
  norm_num [dotPt]

lemma zCC : triDist2 [((100 : ℝ), (50 : ℝ)), (101, 50), (100, 52), (102, 53)]
    [((0 : ℝ), (0 : ℝ)), (1, 0), (0, 2), (2, 3)]
    ⟨0, 2, 3, Real.sqrt (13 / 4), 6 / Real.sqrt 52⟩
    ⟨0, 2, 3, Real.sqrt (13 / 4), 6 / Real.sqrt 52⟩ = 0 := by
  simp only [triDist2, uC1a, uC2a]
  norm_num [dotPt]

lemma zDD : triDist2 [((100 : ℝ), (50 : ℝ)), (101, 50), (100, 52), (102, 53)]
    [((0 : ℝ), (0 : ℝ)), (1, 0), (0, 2), (2, 3)]
    ⟨1, 2, 3, Real.sqrt 2, 5 / Real.sqrt 50⟩ ⟨1, 2, 3, Real.sqrt 2, 5 / Real.sqrt 50⟩ = 0 := by
  have h5 : Real.sqrt 5 * Real.sqrt 5 = 5 := Real.mul_self_sqrt (by norm_num)
  have hdot : dotPt (-1 / Real.sqrt 5, 2 / Real.sqrt 5) (-1 / Real.sqrt 5, 2 / Real.sqrt 5) =
      1 := by
    rw [dotPt]
    rw [div_mul_div_comm, div_mul_div_comm, h5]
    norm_num
  simp only [triDist2, uD1a, uD2a, hdot]
  norm_num

/-- `np.argmin` and `np.min` of a 4×4 distance grid whose diagonal is its
unique zero in every row. -/
lemma grid4 (f : TriFeat → TriFeat → ℝ) (A B C D : TriFeat)
    (zA : f A A = 0) (zB : f B B = 0) (zC : f C C = 0) (zD : f D D = 0)
    (hAB : 0 < f A B) (hAC : 0 < f A C) (hAD : 0 < f A D)
    (hBA : 0 < f B A) (hBC : 0 < f B C) (hBD : 0 < f B D)
    (hCA : 0 < f C A) (hCB : 0 < f C B) (hCD : 0 < f C D)
    (hDA : 0 < f D A) (hDB : 0 < f D B) (hDC : 0 < f D C) :
    (([A, B, C, D] : List TriFeat).map fun a =>
        argminList (([A, B, C, D] : List TriFeat).map fun b => f a b)) = [0, 1, 2, 3] ∧
    (([A, B, C, D] : List TriFeat).map fun a =>
        minList (([A, B, C, D] : List TriFeat).map fun b => f a b)) = [0, 0, 0, 0] := by
  have r0 := argminList_eq_of_unique_zero [f A A, f A B, f A C, f A D] 0 (by simp) zA
    (by intro j hj hne
        simp only [List.length_cons, List.length_nil] at hj
        interval_cases j
        · exact absurd rfl hne
        · exact hAB
        · exact hAC
        · exact hAD)
  have r1 := argminList_eq_of_unique_zero [f B A, f B B, f B C, f B D] 1 (by simp) zB
    (by intro j hj hne
        simp only [List.length_cons, List.length_nil] at hj
        interval_cases j
        · exact hBA
        · exact absurd rfl hne
        · exact hBC
        · exact hBD)
  have r2 := argminList_eq_of_unique_zero [f C A, f C B, f C C, f C D] 2 (by simp) zC
    (by intro j hj hne
        simp only [List.length_cons, List.length_nil] at hj
        interval_cases j
        · exact hCA
        · exact hCB
        · exact absurd rfl hne
        · exact hCD)
  have r3 := argminList_eq_of_unique_zero [f D A, f D B, f D C, f D D] 3 (by simp) zD
    (by intro j hj hne
        simp only [List.length_cons, List.length_nil] at hj
        interval_cases j
        · exact hDA
        · exact hDB
        · exact hDC
        · exact absurd rfl hne)
  constructor
  · simp only [List.map_cons, List.map_nil]
    rw [r0.1, r1.1, r2.1, r3.1]
  · simp only [List.map_cons, List.map_nil]
    rw [r0.2, r1.2, r2.2, r3.2]

lemma asymMatched :
    ([⟨1, 0, 2, Real.sqrt 5, 1 / Real.sqrt 5⟩,
      ⟨0, 1, 3, Real.sqrt 13, 2 / Real.sqrt 13⟩,
      ⟨0, 2, 3, Real.sqrt (13 / 4), 6 / Real.sqrt 52⟩,
      ⟨1, 2, 3, Real.sqrt 2, 5 / Real.sqrt 50⟩] : List TriFeat).map (fun a => argminList
      (([⟨1, 0, 2, Real.sqrt 5, 1 / Real.sqrt 5⟩,
         ⟨0, 1, 3, Real.sqrt 13, 2 / Real.sqrt 13⟩,
         ⟨0, 2, 3, Real.sqrt (13 / 4), 6 / Real.sqrt 52⟩,
         ⟨1, 2, 3, Real.sqrt 2, 5 / Real.sqrt 50⟩] : List TriFeat).map (fun b =>
        triDist2 [((100 : ℝ), (50 : ℝ)), (101, 50), (100, 52), (102, 53)]
          [((0 : ℝ), (0 : ℝ)), (1, 0), (0, 2), (2, 3)] a b))) = [0, 1, 2, 3] :=
  (grid4 _ _ _ _ _ zAA zBB zCC zDD
    (triDist2_pos_of_r_ne _ _ _ _ r_ne_AB) (triDist2_pos_of_r_ne _ _ _ _ r_ne_AC)
    (triDist2_pos_of_r_ne _ _ _ _ r_ne_AD) (triDist2_pos_of_r_ne _ _ _ _ (Ne.symm r_ne_AB))
    (triDist2_pos_of_r_ne _ _ _ _ r_ne_BC) (triDist2_pos_of_r_ne _ _ _ _ r_ne_BD)
    (triDist2_pos_of_r_ne _ _ _ _ (Ne.symm r_ne_AC)) (triDist2_pos_of_r_ne _ _ _ _ (Ne.symm r_ne_BC))
    (triDist2_pos_of_r_ne _ _ _ _ r_ne_CD) (triDist2_pos_of_r_ne _ _ _ _ (Ne.symm r_ne_AD))
    (triDist2_pos_of_r_ne _ _ _ _ (Ne.symm r_ne_BD)) (triDist2_pos_of_r_ne _ _ _ _ (Ne.symm r_ne_CD))).1

lemma asymD2min :
    ([⟨1, 0, 2, Real.sqrt 5, 1 / Real.sqrt 5⟩,
      ⟨0, 1, 3, Real.sqrt 13, 2 / Real.sqrt 13⟩,
      ⟨0, 2, 3, Real.sqrt (13 / 4), 6 / Real.sqrt 52⟩,
      ⟨1, 2, 3, Real.sqrt 2, 5 / Real.sqrt 50⟩] : List TriFeat).map (fun a => minList
      (([⟨1, 0, 2, Real.sqrt 5, 1 / Real.sqrt 5⟩,
         ⟨0, 1, 3, Real.sqrt 13, 2 / Real.sqrt 13⟩,
         ⟨0, 2, 3, Real.sqrt (13 / 4), 6 / Real.sqrt 52⟩,
         ⟨1, 2, 3, Real.sqrt 2, 5 / Real.sqrt 50⟩] : List TriFeat).map (fun b =>
        triDist2 [((100 : ℝ), (50 : ℝ)), (101, 50), (100, 52), (102, 53)]
          [((0 : ℝ), (0 : ℝ)), (1, 0), (0, 2), (2, 3)] a b))) = [0, 0, 0, 0] :=
  (grid4 _ _ _ _ _ zAA zBB zCC zDD
    (triDist2_pos_of_r_ne _ _ _ _ r_ne_AB) (triDist2_pos_of_r_ne _ _ _ _ r_ne_AC)
    (triDist2_pos_of_r_ne _ _ _ _ r_ne_AD) (triDist2_pos_of_r_ne _ _ _ _ (Ne.symm r_ne_AB))
    (triDist2_pos_of_r_ne _ _ _ _ r_ne_BC) (triDist2_pos_of_r_ne _ _ _ _ r_ne_BD)
    (triDist2_pos_of_r_ne _ _ _ _ (Ne.symm r_ne_AC)) (triDist2_pos_of_r_ne _ _ _ _ (Ne.symm r_ne_BC))
    (triDist2_pos_of_r_ne _ _ _ _ r_ne_CD) (triDist2_pos_of_r_ne _ _ _ _ (Ne.symm r_ne_AD))
    (triDist2_pos_of_r_ne _ _ _ _ (Ne.symm r_ne_BD)) (triDist2_pos_of_r_ne _ _ _ _ (Ne.symm r_ne_CD))).2

lemma asymCands : fiducials_candidates
    [((100 : ℝ), (50 : ℝ)), (101, 50), (100, 52), (102, 53)] 7 = [0, 1, 2, 3] := by
  have h0 : numNeighbors [((100 : ℝ), (50 : ℝ)), (101, 50), (100, 52), (102, 53)] 7 0 = 4 := by
    rw [numNeighbors_eq]; norm_num [dist2d, d2, List.countP_cons, Real.sqrt_lt']
  have h1 : numNeighbors [((100 : ℝ), (50 : ℝ)), (101, 50), (100, 52), (102, 53)] 7 1 = 4 := by
    rw [numNeighbors_eq]; norm_num [dist2d, d2, List.countP_cons, Real.sqrt_lt']
  have h2 : numNeighbors [((100 : ℝ), (50 : ℝ)), (101, 50), (100, 52), (102, 53)] 7 2 = 4 := by
    rw [numNeighbors_eq]; norm_num [dist2d, d2, List.countP_cons, Real.sqrt_lt']
  have h3 : numNeighbors [((100 : ℝ), (50 : ℝ)), (101, 50), (100, 52), (102, 53)] 7 3 = 4 := by
    rw [numNeighbors_eq]; norm_num [dist2d, d2, List.countP_cons, Real.sqrt_lt']
  have hrange : List.range 4 = [0, 1, 2, 3] := by decide
  unfold fiducials_candidates
  rw [show ([((100 : ℝ), (50 : ℝ)), (101, 50), (100, 52), (102, 53)] : List Pt).length = 4
    from rfl, hrange]
  simp [List.filter, h0, h1, h2, h3]

/-! The asymmetric cluster's query from spot 0 has priorities
`[0, -1, -4, -13]` — no ties, so the heap returns plain index order. -/

lemma aQp2 : qpush 4 49 [((-1 : ℝ), (1 : ℕ)), 0] (-4, 2) =
    [(-4, 2), 0, (-1, 1)] := by
  rw [qpush, heapPush]
  norm_num
  repeat (rw [siftUp]; norm_num [hswap])

lemma aQp3 : qpush 4 49 [((-4 : ℝ), (2 : ℕ)), 0, (-1, 1)] (-13, 3) =
    [(-13, 3), (-4, 2), (-1, 1), 0] := by
  rw [qpush, heapPush]
  norm_num
  repeat (rw [siftUp]; norm_num [hswap])

lemma aSd1 : siftDown [(0 : ℝ × ℕ), (-4, 2), (-1, 1)] 0 =
    [(-4, 2), 0, (-1, 1)] := by
  repeat (rw [siftDown]; norm_num [hswap])

lemma aSd2 : siftDown [((-1 : ℝ), (1 : ℕ)), 0] 0 = [(-1, 1), 0] := by
  rw [siftDown]
  norm_num

lemma aPop : heapPopAll 4 [((-13 : ℝ), (3 : ℕ)), (-4, 2), (-1, 1), 0] =
    [(-13, 3), (-4, 2), (-1, 1), 0] := by
  rw [heapPopAll]
  norm_num
  rw [aSd1, heapPopAll]
  norm_num
  rw [aSd2, heapPopAll]
  norm_num
  rw [sdZero, heapPopAll]
  norm_num

lemma aKnn : (knnResult 4 49 [(0 : ℝ × ℕ), (-1, 1), (-4, 2), (-13, 3)]).map Prod.snd =
    [0, 1, 2, 3] := by
  have hfold : ([(0 : ℝ × ℕ), (-1, 1), (-4, 2), (-13, 3)] : List (ℝ × ℕ)).foldl
      (qpush 4 49) [] = [(-13, 3), (-4, 2), (-1, 1), 0] := by
    rw [List.foldl_cons, sqQp0, List.foldl_cons, sqQp1, List.foldl_cons, aQp2,
      List.foldl_cons, aQp3, List.foldl_nil]
  unfold knnResult
  rw [hfold]
  norm_num [aPop]

lemma asymPi1 : clusterIndices
    [((100 : ℝ), (50 : ℝ)), (101, 50), (100, 52), (102, 53)] 7 0 = [0, 1, 2, 3] := by
  rw [clusterIndices_eval _ _ (by norm_num)]
  have harg : withIdx (([((100 : ℝ), (50 : ℝ)), (101, 50), (100, 52), (102, 53)] :
      List Pt).map fun q =>
        -(d2 (([((100 : ℝ), (50 : ℝ)), (101, 50), (100, 52), (102, 53)] :
          List Pt).getD 0 (0, 0)) q)) =
      [(0 : ℝ × ℕ), (-1, 1), (-4, 2), (-13, 3)] := by
    norm_num [withIdx, d2, List.enum, List.enumFrom]
  rw [show ((7 : ℝ) ^ 2) = 49 from by norm_num, harg]
  exact aKnn

lemma asymPairs : matchedPairs [((100 : ℝ), (50 : ℝ)), (101, 50), (100, 52), (102, 53)]
    [((0 : ℝ), (0 : ℝ))] = [(0, 0)] := by
  have r1 : refineOnce [((100 : ℝ), (50 : ℝ)), (101, 50), (100, 52), (102, 53)]
      [((0 : ℝ), (0 : ℝ))] = [(100, 50)] := by
    unfold refineOnce
    simp only [nearestIdx_eval]
    norm_num [d2, argminList, minList, min_def, median,
      List.insertionSort, List.orderedInsert, byVal]
  have r2 : refineOnce [((100 : ℝ), (50 : ℝ)), (101, 50), (100, 52), (102, 53)]
      [((100 : ℝ), (50 : ℝ))] = [(100, 50)] := by
    unfold refineOnce
    simp only [nearestIdx_eval]
    norm_num [d2, argminList, minList, min_def, median,
      List.insertionSort, List.orderedInsert, byVal]
  unfold matchedPairs refinedFids
  rw [r1, r2]
  simp only [nearestIdx_eval, nearestDist_eval]
  norm_num [maxdistance, d2, argminList, minList, min_def, List.filter]

lemma inv_sqrt5_not_gt : ¬ ((9 / 10 : ℝ) < (Real.sqrt 5)⁻¹) := by
  intro h
  have h2 : (0 : ℝ) < Real.sqrt 5 := Real.sqrt_pos.mpr (by norm_num)
  have h3 : (10 / 9 : ℝ) ≤ Real.sqrt 5 :=
    (Real.le_sqrt (by norm_num) (by norm_num)).mpr (by norm_num)
  have h4 : Real.sqrt 5 * (Real.sqrt 5)⁻¹ = 1 := mul_inv_cancel₀ (ne_of_gt h2)
  have h5 := mul_lt_mul_of_pos_left h h2
  rw [h4] at h5
  nlinarith

lemma two_div_sqrt13_not_gt : ¬ ((9 / 10 : ℝ) < 2 / Real.sqrt 13) := by
  intro h
  have h2 : (0 : ℝ) < Real.sqrt 13 := Real.sqrt_pos.mpr (by norm_num)
  have h3 : (20 / 9 : ℝ) ≤ Real.sqrt 13 :=
    (Real.le_sqrt (by norm_num) (by norm_num)).mpr (by norm_num)
  have h6 : Real.sqrt 13 * (2 / Real.sqrt 13) = 2 := by
    field_simp
  have h5 := mul_lt_mul_of_pos_left h h2
  rw [h6] at h5
  nlinarith

lemma asymLoop : assignLoop 1 [0, 1, 2, 3] [4, 1, 2, 3]
    [⟨1, 0, 2, Real.sqrt 5, 1 / Real.sqrt 5⟩,
     ⟨0, 1, 3, Real.sqrt 13, 2 / Real.sqrt 13⟩,
     ⟨0, 2, 3, Real.sqrt (13 / 4), 6 / Real.sqrt 52⟩,
     ⟨1, 2, 3, Real.sqrt 2, 5 / Real.sqrt 50⟩]
    [⟨1, 0, 2, Real.sqrt 5, 1 / Real.sqrt 5⟩,
     ⟨0, 1, 3, Real.sqrt 13, 2 / Real.sqrt 13⟩,
     ⟨0, 2, 3, Real.sqrt (13 / 4), 6 / Real.sqrt 52⟩,
     ⟨1, 2, 3, Real.sqrt 2, 5 / Real.sqrt 50⟩]
    [0, 1, 2, 3] [0, 0, 0, 0] [0, 1, 2, 3] ([0, 0, 0, 0], asymSpots) =
    ([4, 1, 2, 3],
     [⟨100, 50, 1, 4⟩, ⟨101, 50, 1, 1⟩, ⟨100, 52, 1, 2⟩, ⟨102, 53, 1, 3⟩]) := by
  norm_num [assignLoop, assignStep, asymSpots, List.set, List.countP, List.countP.go,
    inv_sqrt5_not_gt, two_div_sqrt13_not_gt]

lemma asymProcess :
    processCluster [⟨1, 4, (0, 0)⟩, ⟨1, 1, (1, 0)⟩, ⟨1, 2, (0, 2)⟩, ⟨1, 3, (2, 3)⟩] 1
      [0, 1, 2, 3] asymSpots =
    [⟨100, 50, 1, 4⟩, ⟨101, 50, 1, 1⟩, ⟨100, 52, 1, 2⟩, ⟨102, 53, 1, 3⟩] := by
  have hxy1 : ([0, 1, 2, 3] : List ℕ).map
      (fun i => ((asymSpots.getD i default).x, (asymSpots.getD i default).y)) =
      [((100 : ℝ), (50 : ℝ)), (101, 50), (100, 52), (102, 53)] := rfl
  have hrows : ([⟨1, 4, (0, 0)⟩, ⟨1, 1, (1, 0)⟩, ⟨1, 2, (0, 2)⟩, ⟨1, 3, (2, 3)⟩] :
      List PRow).filter (fun m => decide (m.location = 1)) =
      [⟨1, 4, (0, 0)⟩, ⟨1, 1, (1, 0)⟩, ⟨1, 2, (0, 2)⟩, ⟨1, 3, (2, 3)⟩] := rfl
  have hxy2 : ([⟨1, 4, (0, 0)⟩, ⟨1, 1, (1, 0)⟩, ⟨1, 2, (0, 2)⟩, ⟨1, 3, (2, 3)⟩] :
      List PRow).map PRow.pos = [((0 : ℝ), (0 : ℝ)), (1, 0), (0, 2), (2, 3)] := rfl
  have hids : ([⟨1, 4, (0, 0)⟩, ⟨1, 1, (1, 0)⟩, ⟨1, 2, (0, 2)⟩, ⟨1, 3, (2, 3)⟩] :
      List PRow).map PRow.pinhole = [4, 1, 2, 3] := rfl
  have hrep : List.replicate ([0, 1, 2, 3] : List ℕ).length (0 : ℤ) = [0, 0, 0, 0] := rfl
  simp only [processCluster, hxy1, hrows, hxy2, hids, hrep]
  rw [asymT1, asymT2, asymMatched, asymD2min, sqRanked]
  exact congrArg Prod.snd asymLoop

/-- The full pipeline on the asymmetric scenario: every spot receives the
`PINHOLE_ID` of its physically corresponding pinhole and `LOCATION` 1. -/
lemma asymRun : findfiducialsRun (fun p => p) asymMetrology asymSpots 7 =
    [⟨100, 50, 1, 4⟩, ⟨101, 50, 1, 1⟩, ⟨100, 52, 1, 2⟩, ⟨102, 53, 1, 3⟩] := by
  have hpin : ((asymMetrology.filter fun m => decide (0 < m.pinhole)).map
      fun m => (⟨m.location, m.pinhole, (m.xfp, m.yfp)⟩ : PRow)) =
      [⟨1, 4, (0, 0)⟩, ⟨1, 1, (1, 0)⟩, ⟨1, 2, (0, 2)⟩, ⟨1, 3, (2, 3)⟩] := rfl
  have hfid : ([⟨1, 4, (0, 0)⟩, ⟨1, 1, (1, 0)⟩, ⟨1, 2, (0, 2)⟩, ⟨1, 3, (2, 3)⟩] :
      List PRow).filter (fun m => decide (m.pinhole = 4)) = [⟨1, 4, (0, 0)⟩] := rfl
  have hxy : asymSpots.map (fun s => (s.x, s.y)) =
      [((100 : ℝ), (50 : ℝ)), (101, 50), (100, 52), (102, 53)] := rfl
  have hcandp : ([0, 1, 2, 3] : List ℕ).map
      (fun i => ([((100 : ℝ), (50 : ℝ)), (101, 50), (100, 52), (102, 53)] :
        List Pt).getD i (0, 0)) =
      [((100 : ℝ), (50 : ℝ)), (101, 50), (100, 52), (102, 53)] := rfl
  have hfpos : ([⟨1, 4, (0, 0)⟩] : List PRow).map PRow.pos = [((0 : ℝ), (0 : ℝ))] := rfl
  simp only [findfiducialsRun, hpin, hfid, hxy, asymCands, hcandp, hfpos, asymPairs]
  simp only [List.foldl_cons, List.foldl_nil]
  have hg1 : ([0, 1, 2, 3] : List ℕ).getD 0 0 = 0 := rfl
  have hg2 : (([⟨1, 4, (0, 0)⟩] : List PRow).getD 0 default).location = 1 := rfl
  rw [hg1, hg2, asymPi1, asymProcess]

/-! ## Injectivity of the pinhole-id assignment -/

lemma getD_set_inv (l ids2 : List ℤ) (i : ℕ)
    (h : ∀ j, l.getD j 0 = 0 ∨ l.getD j 0 = ids2.getD j 0) :
    ∀ j, (l.set i (ids2.getD i 0)).getD j 0 = 0 ∨
      (l.set i (ids2.getD i 0)).getD j 0 = ids2.getD j 0 := by
  intro j
  rcases eq_or_ne j i with rfl | hne
  · rcases lt_or_le j l.length with hlt | hge
    · right
      rw [List.getD_eq_getElem?_getD, List.getElem?_set_eq_of_lt _ hlt, Option.getD_some]
    · left
      rw [List.getD_eq_default _ _ (by simpa using hge)]
  · have heq : (l.set i (ids2.getD i 0)).getD j 0 = l.getD j 0 := by
      rw [List.getD_eq_getElem?_getD, List.getElem?_set_ne (Ne.symm hne),
        ← List.getD_eq_getElem?_getD]
    rw [heq]
    exact h j

/-- When the matched metrology triangle has exactly the same canonical vertex
indices as the measured triangle, an accepted step writes `ids2[i]` into
`pinhole_ids[i]`: each per-cluster slot only ever receives its own id. -/
lemma assignStep_id_inv (loc : ℤ) (pi1 : List ℕ) (ids2 : List ℤ)
    (t1 t2 : List TriFeat) (matched : List ℕ) (p : ℕ) (st : AssignState)
    (hc : (t2.getD (matched.getD p 0) default).i0 = (t1.getD p default).i0 ∧
      (t2.getD (matched.getD p 0) default).i1 = (t1.getD p default).i1 ∧
      (t2.getD (matched.getD p 0) default).i2 = (t1.getD p default).i2)
    (h : ∀ j, st.1.getD j 0 = 0 ∨ st.1.getD j 0 = ids2.getD j 0) :
    ∀ j, (assignStep loc pi1 ids2 t1 t2 matched p st).1.getD j 0 = 0 ∨
      (assignStep loc pi1 ids2 t1 t2 matched p st).1.getD j 0 = ids2.getD j 0 := by
  obtain ⟨h0, h1, h2⟩ := hc
  simp only [assignStep, h0, h1, h2]
  exact getD_set_inv _ _ _ (getD_set_inv _ _ _ (getD_set_inv _ _ _ h))

lemma assignLoop_id_inv (loc : ℤ) (pi1 : List ℕ) (ids2 : List ℤ)
    (t1 t2 : List TriFeat) (matched : List ℕ) (d2min : List ℝ)
    (hcorr : ∀ p, (t2.getD (matched.getD p 0) default).i0 = (t1.getD p default).i0 ∧
      (t2.getD (matched.getD p 0) default).i1 = (t1.getD p default).i1 ∧
      (t2.getD (matched.getD p 0) default).i2 = (t1.getD p default).i2) :
    ∀ (ranked : List ℕ) (st : AssignState),
      (∀ j, st.1.getD j 0 = 0 ∨ st.1.getD j 0 = ids2.getD j 0) →
      ∀ j, (assignLoop loc pi1 ids2 t1 t2 matched d2min ranked st).1.getD j 0 = 0 ∨
        (assignLoop loc pi1 ids2 t1 t2 matched d2min ranked st).1.getD j 0 = ids2.getD j 0
  | [], _, h => h
  | p :: rest, st, h => by
    rw [assignLoop]
    dsimp only
    split_ifs with h1 h2 h3
    · exact assignLoop_id_inv loc pi1 ids2 t1 t2 matched d2min hcorr rest st h
    · exact h
    · exact assignStep_id_inv loc pi1 ids2 t1 t2 matched p st (hcorr p) h
    · exact assignLoop_id_inv loc pi1 ids2 t1 t2 matched d2min hcorr rest _
        (assignStep_id_inv loc pi1 ids2 t1 t2 matched p st (hcorr p) h)

lemma nodup_getD_ne (l : List ℤ) (h : l.Nodup) (i j : ℕ)
    (hi : i < l.length) (hj : j < l.length) (hij : i ≠ j) :
    l.getD i 0 ≠ l.getD j 0 := by
  rw [List.getD_eq_getElem _ _ hi, List.getD_eq_getElem _ _ hj]
  intro hc
  exact hij ((List.Nodup.getElem_inj_iff h).mp hc)

/-- **C1 (counterexample)** End-to-end identification fails on the spec's own
square scenario: pinholes `(0,0)` id 4, `(1,0)` id 1, `(0,1)` id 2, `(1,1)`
id 3 and the 4-spot cluster shifted by `(+100, +50)`.  All four spots do get
the single consistent `LOCATION` 1, but the `PINHOLE_ID`s come out
`[4, 3, 2, 3]` instead of the physically correct `[4, 1, 2, 3]`: the
square's symmetry makes all four triangles congruent, so measured triangles
tie at matching distance 0 with the wrong metrology triangle (first sides
(anti-)parallel), `np.argmin` keeps the first tie, and the mismatched vertex
correspondence gives spot 1 the id 3 of spot 3's pinhole. -/
theorem claim1_counterexample :
    (findfiducialsRun (fun p => p) sqMetrology sqSpots 7).map Spot.location =
      [1, 1, 1, 1] ∧
    (findfiducialsRun (fun p => p) sqMetrology sqSpots 7).map Spot.pinhole =
      [4, 3, 2, 3] ∧
    ([4, 3, 2, 3] : List ℤ) ≠ [4, 1, 2, 3] := by
  refine ⟨?_, ?_, by decide⟩
  · rw [sqRun]
    rfl
  · rw [sqRun]
    rfl

/-- **C1 (amended)** End-to-end identification succeeds once the fiducial
layout determines its triangles: with pinholes `(0,0)` id 4, `(1,0)` id 1,
`(0,2)` id 2, `(2,3)` id 3 (pairwise distinct triangle ratios) and the
cluster shifted by `(+100, +50)`, every spot receives the `PINHOLE_ID` of
its physically corresponding pinhole and the single `LOCATION` 1. -/
theorem claim1_amended :
    (findfiducialsRun (fun p => p) asymMetrology asymSpots 7).map Spot.location =
      [1, 1, 1, 1] ∧
    (findfiducialsRun (fun p => p) asymMetrology asymSpots 7).map Spot.pinhole =
      [4, 1, 2, 3] := by
  constructor
  · rw [asymRun]
    rfl
  · rw [asymRun]
    rfl

/-- **C7 (counterexample)** Injectivity fails on clean synthetic data: the
square cluster is noise-free, well separated, and every one of its triangles
(computed over the cluster in query order, exactly as the code does) is
non-degenerate even by the code's own criterion (all cosines
`c = 1/√2 ≤ 0.9`), yet after the full pipeline spots 1 and 3 carry the same
nonzero `PINHOLE_ID` 3. -/
theorem claim7_counterexample :
    (∀ t ∈ compute_triangles [((100 : ℝ), (50 : ℝ)), (100, 51), (101, 50), (101, 51)],
      t.c ≤ 0.9) ∧
    ((findfiducialsRun (fun p => p) sqMetrology sqSpots 7).getD 1 default).pinhole =
      ((findfiducialsRun (fun p => p) sqMetrology sqSpots 7).getD 3 default).pinhole ∧
    (0 : ℤ) <
      ((findfiducialsRun (fun p => p) sqMetrology sqSpots 7).getD 1 default).pinhole := by
  refine ⟨?_, ?_, ?_⟩
  · rw [sqT1]
    intro t ht
    fin_cases ht <;> simpa using inv_sqrt2_le
  · rw [sqRun]
    rfl
  · rw [sqRun]
    decide

/-- **C7 (amended)** The pinhole assignment is injective on nonzero ids
whenever the triangle matching is vertex-correct: if every measured triangle
is matched to a metrology triangle carrying the same canonical vertex
indices (which the asymmetric layout guarantees and the square layout
violates), each slot `i` of the per-cluster `pinhole_ids` array only ever
receives its own id `ids2[i]`; with distinct metrology ids, two different
slots can then never hold the same nonzero id, no matter which triangles are
skipped, accepted, or cut off by the loop. -/
theorem claim7_injectivity_amended (loc : ℤ) (pi1 : List ℕ) (ids2 : List ℤ)
    (t1 t2 : List TriFeat) (matched : List ℕ) (d2min : List ℝ)
    (ranked : List ℕ) (st : AssignState)
    (hcorr : ∀ p, (t2.getD (matched.getD p 0) default).i0 = (t1.getD p default).i0 ∧
      (t2.getD (matched.getD p 0) default).i1 = (t1.getD p default).i1 ∧
      (t2.getD (matched.getD p 0) default).i2 = (t1.getD p default).i2)
    (hinit : ∀ j, st.1.getD j 0 = 0 ∨ st.1.getD j 0 = ids2.getD j 0)
    (hnodup : ids2.Nodup) :
    ∀ i j, i ≠ j →
      (assignLoop loc pi1 ids2 t1 t2 matched d2min ranked st).1.getD i 0 ≠ 0 →
      (assignLoop loc pi1 ids2 t1 t2 matched d2min ranked st).1.getD j 0 ≠ 0 →
      (assignLoop loc pi1 ids2 t1 t2 matched d2min ranked st).1.getD i 0 ≠
        (assignLoop loc pi1 ids2 t1 t2 matched d2min ranked st).1.getD j 0 := by
  intro i j hij hi hj
  have hinv := assignLoop_id_inv loc pi1 ids2 t1 t2 matched d2min hcorr ranked st hinit
  rcases hinv i with h0 | hei
  · exact absurd h0 hi
  rcases hinv j with h0 | hej
  · exact absurd h0 hj
  rw [hei, hej]
  rw [hei] at hi
  rw [hej] at hj
  have hilt : i < ids2.length := by
    by_contra hc
    exact hi (List.getD_eq_default _ _ (le_of_not_lt hc))
  have hjlt : j < ids2.length := by
    by_contra hc
    exact hj (List.getD_eq_default _ _ (le_of_not_lt hc))
  exact nodup_getD_ne ids2 hnodup i j hilt hjlt hij

theorem claim7_injectivity_amended_witness :
    (assignLoop 1 [] [4, 1] [] [] [] [] [] (([4, 1] : List ℤ), [])).1.getD 0 0 ≠
    (assignLoop 1 [] [4, 1] [] [] [] [] [] (([4, 1] : List ℤ), [])).1.getD 1 0 :=
  claim7_injectivity_amended 1 [] [4, 1] [] [] [] [] [] ([4, 1], [])
    (fun _ => ⟨rfl, rfl, rfl⟩)
    (by intro j
        rcases j with _ | _ | n
        · exact Or.inr rfl
        · exact Or.inr rfl
        · exact Or.inl rfl)
    (by decide) 0 1 (by decide) (by decide) (by decide)

end Desimeter
